import Mathlib

set_option maxRecDepth 4000

/-!
Verification development for the LinguaGen / GlossaForge conlang builder.

The application (src/App.tsx, src/services/geminiService.ts) is a browser UI
around a Conlang record.  This file embeds, as executable Lean definitions,
the pieces of the program the specification makes claims about:

* the share-token pipeline of handleShare and the load-time decoder
  (JSON.stringify, the unicode-safe base64 trick built from
  encodeURIComponent / unescape / btoa, and its inverse atob / escape /
  decodeURIComponent / JSON.parse);
* the controller actions handleGenerate, handleExtendVocabulary,
  handleSaveLang, handleDelete and the initial load effect.

App.tsx contains several revisions of the same component; the claims cite the
first and the second.  Where the revisions differ (share encoding, error
message texts, default vibe text) the definitions below follow the second
revision, the one the claims single out by line range for the decisive
behaviour, and doc comments note the difference.

JS strings are modelled as lists of Unicode code points (`Str`), and the
browser builtins used by the program (btoa, atob, escape, unescape,
encodeURIComponent, decodeURIComponent, JSON.stringify, JSON.parse) are given
executable models faithful on the inputs the program feeds them; doc comments
note the spots where a builtin is modelled only on the input space the
program can produce.
-/

namespace LinguaGen

/-- A JS string, modelled as the list of its Unicode code points. -/
abbrev Str := List Nat

/-- Code-point view of a Lean string literal, used to embed the literal
strings of the source. -/
def strOf (s : String) : Str := s.toList.map Char.toNat

/-- A Unicode scalar value: a code point below 0x110000 that is not a UTF-16
surrogate. -/
def scalar (c : Nat) : Prop := c < 1114112 ∧ (c < 55296 ∨ 57344 ≤ c)

instance : DecidablePred scalar := fun c => by unfold scalar; infer_instance

/-- A well-formed JS string for serialization purposes: every code point is a
Unicode scalar value (no lone surrogates). -/
def validStr (s : Str) : Prop := ∀ c ∈ s, scalar c

instance : DecidablePred validStr := fun s => List.decidableBAll scalar s

/-- UTF-8 encoding of one Unicode scalar value: the byte sequence the
encodeURIComponent builtin percent-encodes for a non-safe character. -/
def utf8Char (c : Nat) : List Nat :=
  if c < 128 then [c]
  else if c < 2048 then [192 + c / 64, 128 + c % 64]
  else if c < 65536 then [224 + c / 4096, 128 + c / 64 % 64, 128 + c % 64]
  else [240 + c / 262144, 128 + c / 4096 % 64, 128 + c / 64 % 64, 128 + c % 64]

/-- UTF-8 encoding of a whole string. -/
def utf8Encode : Str → List Nat
  | [] => []
  | c :: s => utf8Char c ++ utf8Encode s

/-- Whether a byte is a UTF-8 continuation byte. -/
def utf8Cont (b : Nat) : Bool := decide (128 ≤ b) && decide (b < 192)

theorem utf8Cont_iff (b : Nat) : utf8Cont b = true ↔ 128 ≤ b ∧ b < 192 := by
  simp [utf8Cont]

def take1 : List Nat → Option (Nat × List Nat)
  | [] => none
  | b :: r => some (b, r)

def utf8Step (l : List Nat) : Option (Nat × List Nat) := do
  let p1 ← take1 l
  let b := p1.1
  if b < 128 then some (b, p1.2)
  else if b < 192 then none
  else if b < 224 then do
    let p2 ← take1 p1.2
    if utf8Cont p2.1 then
      let c := (b - 192) * 64 + (p2.1 - 128)
      if 128 ≤ c then some (c, p2.2) else none
    else none
  else if b < 240 then do
    let p2 ← take1 p1.2
    let p3 ← take1 p2.2
    if utf8Cont p2.1 && utf8Cont p3.1 then
      let c := (b - 224) * 4096 + (p2.1 - 128) * 64 + (p3.1 - 128)
      if 2048 ≤ c ∧ (c < 55296 ∨ 57344 ≤ c) then some (c, p3.2) else none
    else none
  else if b < 248 then do
    let p2 ← take1 p1.2
    let p3 ← take1 p2.2
    let p4 ← take1 p3.2
    if utf8Cont p2.1 && utf8Cont p3.1 && utf8Cont p4.1 then
      let c := (b - 240) * 262144 + (p2.1 - 128) * 4096 + (p3.1 - 128) * 64 + (p4.1 - 128)
      if 65536 ≤ c ∧ c < 1114112 then some (c, p4.2) else none
    else none
  else none

theorem utf8Step_char (c : Nat) (h : scalar c) (rest : List Nat) :
    utf8Step (utf8Char c ++ rest) = some (c, rest) := by
  obtain ⟨hlt, hsur⟩ := h
  by_cases h1 : c < 128
  · rw [show utf8Char c = [c] by unfold utf8Char; rw [if_pos h1]]
    simp only [List.singleton_append, utf8Step, take1, Option.bind_eq_bind,
      Option.some_bind, if_pos h1]
  · by_cases h2 : c < 2048
    · rw [show utf8Char c = [192 + c / 64, 128 + c % 64] by
        unfold utf8Char; rw [if_neg h1, if_pos h2]]
      have e1 : ¬ (192 + c / 64 < 128) := by omega
      have e2 : ¬ (192 + c / 64 < 192) := by omega
      have e3 : 192 + c / 64 < 224 := by omega
      have e4 : utf8Cont (128 + c % 64) = true := (utf8Cont_iff _).mpr (by omega)
      simp only [List.cons_append, List.nil_append, utf8Step, take1,
        Option.bind_eq_bind, Option.some_bind, if_neg e1, if_neg e2, if_pos e3,
        e4, if_true, if_pos (show 128 ≤ (192 + c / 64 - 192) * 64 + (128 + c % 64 - 128) by omega)]
      congr 1
      have : (192 + c / 64 - 192) * 64 + (128 + c % 64 - 128) = c := by omega
      rw [this]
    · by_cases h3 : c < 65536
      · rw [show utf8Char c = [224 + c / 4096, 128 + c / 64 % 64, 128 + c % 64] by
          unfold utf8Char; rw [if_neg h1, if_neg h2, if_pos h3]]
        have e1 : ¬ (224 + c / 4096 < 128) := by omega
        have e2 : ¬ (224 + c / 4096 < 192) := by omega
        have e3 : ¬ (224 + c / 4096 < 224) := by omega
        have e4 : 224 + c / 4096 < 240 := by omega
        have e5 : utf8Cont (128 + c / 64 % 64) = true := (utf8Cont_iff _).mpr (by omega)
        have e6 : utf8Cont (128 + c % 64) = true := (utf8Cont_iff _).mpr (by omega)
        have e7 : 2048 ≤ (224 + c / 4096 - 224) * 4096 + (128 + c / 64 % 64 - 128) * 64 + (128 + c % 64 - 128) ∧
            ((224 + c / 4096 - 224) * 4096 + (128 + c / 64 % 64 - 128) * 64 + (128 + c % 64 - 128) < 55296 ∨
             57344 ≤ (224 + c / 4096 - 224) * 4096 + (128 + c / 64 % 64 - 128) * 64 + (128 + c % 64 - 128)) := by
          constructor <;> omega
        simp only [List.cons_append, List.nil_append, utf8Step, take1,
          Option.bind_eq_bind, Option.some_bind, if_neg e1, if_neg e2, if_neg e3,
          if_pos e4, e5, e6, Bool.and_self, if_true, if_pos e7]
        congr 1
        have : (224 + c / 4096 - 224) * 4096 + (128 + c / 64 % 64 - 128) * 64 + (128 + c % 64 - 128) = c := by
          omega
        rw [this]
      · rw [show utf8Char c =
            [240 + c / 262144, 128 + c / 4096 % 64, 128 + c / 64 % 64, 128 + c % 64] by
          unfold utf8Char; rw [if_neg h1, if_neg h2, if_neg h3]]
        have e1 : ¬ (240 + c / 262144 < 128) := by omega
        have e2 : ¬ (240 + c / 262144 < 192) := by omega
        have e3 : ¬ (240 + c / 262144 < 224) := by omega
        have e4 : ¬ (240 + c / 262144 < 240) := by omega
        have e5 : 240 + c / 262144 < 248 := by omega
        have e6 : utf8Cont (128 + c / 4096 % 64) = true := (utf8Cont_iff _).mpr (by omega)
        have e7 : utf8Cont (128 + c / 64 % 64) = true := (utf8Cont_iff _).mpr (by omega)
        have e8 : utf8Cont (128 + c % 64) = true := (utf8Cont_iff _).mpr (by omega)
        have e9 : 65536 ≤ (240 + c / 262144 - 240) * 262144 + (128 + c / 4096 % 64 - 128) * 4096 +
              (128 + c / 64 % 64 - 128) * 64 + (128 + c % 64 - 128) ∧
            (240 + c / 262144 - 240) * 262144 + (128 + c / 4096 % 64 - 128) * 4096 +
              (128 + c / 64 % 64 - 128) * 64 + (128 + c % 64 - 128) < 1114112 := by
          constructor <;> omega
        simp only [List.cons_append, List.nil_append, utf8Step, take1,
          Option.bind_eq_bind, Option.some_bind, if_neg e1, if_neg e2, if_neg e3,
          if_neg e4, if_pos e5, e6, e7, e8, Bool.and_self, if_true, if_pos e9]
        congr 1
        have : (240 + c / 262144 - 240) * 262144 + (128 + c / 4096 % 64 - 128) * 4096 +
            (128 + c / 64 % 64 - 128) * 64 + (128 + c % 64 - 128) = c := by omega
        rw [this]

def utf8DecodeAux : Nat → List Nat → Option Str
  | 0, l => if l = [] then some [] else none
  | fuel+1, l =>
    if l = [] then some []
    else do
      let p ← utf8Step l
      let s ← utf8DecodeAux fuel p.2
      pure (p.1 :: s)

def utf8Decode (l : List Nat) : Option Str := utf8DecodeAux l.length l

theorem utf8Char_ne_nil (c : Nat) : utf8Char c ≠ [] := by
  unfold utf8Char; split_ifs <;> simp

theorem utf8Char_length_pos (c : Nat) : 0 < (utf8Char c).length :=
  List.length_pos.mpr (utf8Char_ne_nil c)

theorem utf8DecodeAux_encode (s : Str) : ∀ fuel : Nat, (utf8Encode s).length ≤ fuel →
    (∀ c ∈ s, scalar c) → utf8DecodeAux fuel (utf8Encode s) = some s := by
  induction s with
  | nil =>
    intro fuel _ _
    cases fuel <;> simp [utf8Encode, utf8DecodeAux]
  | cons c cs ih =>
    intro fuel hlen hv
    have hc : scalar c := hv c (by simp)
    have hne : utf8Char c ++ utf8Encode cs ≠ [] := by
      simp [utf8Char_ne_nil c]
    have hstep := utf8Step_char c hc (utf8Encode cs)
    have hlen2 : (utf8Encode cs).length + 1 ≤ fuel := by
      have := utf8Char_length_pos c
      simp only [utf8Encode, List.length_append] at hlen ⊢
      omega
    obtain ⟨fuel2, rfl⟩ : ∃ f, fuel = f + 1 := ⟨fuel - 1, by omega⟩
    show utf8DecodeAux (fuel2 + 1) (utf8Char c ++ utf8Encode cs) = some (c :: cs)
    rw [utf8DecodeAux, if_neg hne]
    simp only [hstep, Option.bind_eq_bind, Option.some_bind]
    rw [ih fuel2 (by omega) (fun x hx => hv x (by simp [hx]))]
    rfl

theorem utf8Decode_encode (s : Str) (h : ∀ c ∈ s, scalar c) :
    utf8Decode (utf8Encode s) = some s :=
  utf8DecodeAux_encode s _ le_rfl h

theorem utf8Char_bytes_lt (c : Nat) (h : scalar c) : ∀ b ∈ utf8Char c, b < 256 := by
  obtain ⟨h1, _⟩ := h
  intro b hb
  unfold utf8Char at hb
  split_ifs at hb with hc1 hc2 hc3 <;> simp at hb <;> omega

/-- Every byte of a UTF-8 encoded valid string is below 256. -/
theorem utf8Encode_bytes_lt (s : Str) (h : validStr s) : ∀ b ∈ utf8Encode s, b < 256 := by
  induction s with
  | nil => intro b hb; simp [utf8Encode] at hb
  | cons c cs ih =>
    intro b hb
    simp only [utf8Encode, List.mem_append] at hb
    rcases hb with hb | hb
    · exact utf8Char_bytes_lt c (h c (by simp)) b hb
    · exact ih (fun x hx => h x (by simp [hx])) b hb

/-- The base64 alphabet character for a 6-bit value, as used by the btoa
builtin. -/
def b64Char (v : Nat) : Nat :=
  if v < 26 then 65 + v
  else if v < 52 then 97 + (v - 26)
  else if v < 62 then 48 + (v - 52)
  else if v = 62 then 43
  else 47

/-- Inverse of the base64 alphabet, as consulted by the atob builtin; none
when the character is not in the alphabet. -/
def b64Val (ch : Nat) : Option Nat :=
  if 65 ≤ ch ∧ ch ≤ 90 then some (ch - 65)
  else if 97 ≤ ch ∧ ch ≤ 122 then some (26 + (ch - 97))
  else if 48 ≤ ch ∧ ch ≤ 57 then some (52 + (ch - 48))
  else if ch = 43 then some 62
  else if ch = 47 then some 63
  else none

/-- The btoa builtin: base64-encode a byte string, with `=` padding.  In the
browser btoa throws on a char code above 255; the callers modelled here only
ever pass byte strings, on which this total model agrees with the builtin. -/
def btoa : List Nat → List Nat
  | [] => []
  | [x] => [b64Char (x / 4), b64Char (x % 4 * 16), 61, 61]
  | [x, y] => [b64Char (x / 4), b64Char (x % 4 * 16 + y / 16), b64Char (y % 16 * 4), 61]
  | x :: y :: z :: rest =>
    b64Char (x / 4) :: b64Char (x % 4 * 16 + y / 16) :: b64Char (y % 16 * 4 + z / 64) ::
      b64Char (z % 64) :: btoa rest

/-- The atob builtin: base64-decode back to a byte string; none on a
malformed token (wrong length, a character outside the alphabet, or padding
anywhere but at the very end).  The builtin additionally strips ASCII
whitespace and accepts unpadded final groups, which no token produced by
btoa contains. -/
def atob : List Nat → Option (List Nat)
  | [] => some []
  | c1 :: c2 :: c3 :: c4 :: rest => do
    let v1 ← b64Val c1
    let v2 ← b64Val c2
    if c3 = 61 then
      if c4 = 61 ∧ rest = [] then some [v1 * 4 + v2 / 16] else none
    else do
      let v3 ← b64Val c3
      if c4 = 61 then
        if rest = [] then some [v1 * 4 + v2 / 16, v2 % 16 * 16 + v3 / 4] else none
      else do
        let v4 ← b64Val c4
        let bs ← atob rest
        some ((v1 * 4 + v2 / 16) :: (v2 % 16 * 16 + v3 / 4) :: (v3 % 4 * 64 + v4) :: bs)
  | _ => none

theorem b64Val_char (v : Nat) (h : v < 64) : b64Val (b64Char v) = some v := by
  revert v
  decide

theorem b64Char_ne_pad (v : Nat) (h : v < 64) : ¬ (b64Char v = 61) := by
  revert v
  decide

theorem atob_btoa_aux : ∀ n : Nat, ∀ bs : List Nat, bs.length ≤ n →
    (∀ b ∈ bs, b < 256) → atob (btoa bs) = some bs := by
  intro n
  induction n with
  | zero =>
    intro bs hlen _
    cases bs with
    | nil => simp [btoa, atob]
    | cons x t => simp at hlen
  | succ n ihn =>
    intro bs hlen h
    match bs with
    | [] => simp [btoa, atob]
    | [x] =>
      have hx : x < 256 := h x (by simp)
      have h1 : x / 4 < 64 := by omega
      have h2 : x % 4 * 16 < 64 := by omega
      rw [show btoa [x] = [b64Char (x / 4), b64Char (x % 4 * 16), 61, 61] from rfl]
      rw [atob]
      simp [b64Val_char _ h1, b64Val_char _ h2]
      omega
    | [x, y] =>
      have hx : x < 256 := h x (by simp)
      have hy : y < 256 := h y (by simp)
      have h1 : x / 4 < 64 := by omega
      have h2 : x % 4 * 16 + y / 16 < 64 := by omega
      have h3 : y % 16 * 4 < 64 := by omega
      rw [show btoa [x, y] =
        [b64Char (x / 4), b64Char (x % 4 * 16 + y / 16), b64Char (y % 16 * 4), 61] from rfl]
      rw [atob]
      simp [b64Val_char _ h1, b64Val_char _ h2, b64Val_char _ h3, b64Char_ne_pad _ h3]
      constructor <;> omega
    | x :: y :: z :: rest =>
      have hx : x < 256 := h x (by simp)
      have hy : y < 256 := h y (by simp)
      have hz : z < 256 := h z (by simp)
      have h1 : x / 4 < 64 := by omega
      have h2 : x % 4 * 16 + y / 16 < 64 := by omega
      have h3 : y % 16 * 4 + z / 64 < 64 := by omega
      have h4 : z % 64 < 64 := by omega
      have hlen2 : rest.length ≤ n := by simp at hlen; omega
      have ih := ihn rest hlen2 (fun b hb => h b (by simp [hb]))
      rw [show btoa (x :: y :: z :: rest) =
        b64Char (x / 4) :: b64Char (x % 4 * 16 + y / 16) ::
          b64Char (y % 16 * 4 + z / 64) :: b64Char (z % 64) :: btoa rest from rfl]
      rw [atob]
      simp [b64Val_char _ h1, b64Val_char _ h2, b64Val_char _ h3, b64Val_char _ h4,
        b64Char_ne_pad _ h3, b64Char_ne_pad _ h4, ih]
      refine ⟨by omega, by omega, by omega⟩

/-- atob inverts btoa on byte strings. -/
theorem atob_btoa (bs : List Nat) (h : ∀ b ∈ bs, b < 256) : atob (btoa bs) = some bs :=
  atob_btoa_aux bs.length bs le_rfl h

/-- Uppercase hex digit character for a value below 16, as emitted by the
encodeURIComponent and escape builtins. -/
def hexUpper (v : Nat) : Nat := if v < 10 then 48 + v else 65 + (v - 10)

/-- Numeric value of a hex digit character, case-insensitive; none
otherwise. -/
def hexVal (ch : Nat) : Option Nat :=
  if 48 ≤ ch ∧ ch ≤ 57 then some (ch - 48)
  else if 65 ≤ ch ∧ ch ≤ 70 then some (10 + (ch - 65))
  else if 97 ≤ ch ∧ ch ≤ 102 then some (10 + (ch - 97))
  else none

theorem hexVal_hexUpper (v : Nat) (h : v < 16) : hexVal (hexUpper v) = some v := by
  revert v; decide

theorem hexUpper_lt (v : Nat) (h : v < 16) : hexUpper v < 71 := by
  revert v; decide

/-- Characters the encodeURIComponent builtin leaves unescaped:
letters, digits, and - _ . ! ~ * apostrophe ( ). -/
def uriUnreserved (c : Nat) : Bool :=
  (decide (65 ≤ c) && decide (c ≤ 90)) || (decide (97 ≤ c) && decide (c ≤ 122)) ||
  (decide (48 ≤ c) && decide (c ≤ 57)) ||
  decide (c = 45) || decide (c = 95) || decide (c = 46) || decide (c = 33) ||
  decide (c = 126) || decide (c = 42) || decide (c = 39) || decide (c = 40) || decide (c = 41)

theorem uriUnreserved_bounds (c : Nat) (h : uriUnreserved c = true) : c < 128 ∧ c ≠ 37 := by
  simp only [uriUnreserved, Bool.or_eq_true, Bool.and_eq_true, decide_eq_true_eq] at h
  omega

/-- Percent-encoding of a byte string, three output characters per byte. -/
def pctBytes : List Nat → List Nat
  | [] => []
  | b :: bs => 37 :: hexUpper (b / 16) :: hexUpper (b % 16) :: pctBytes bs

/-- The encodeURIComponent builtin: unreserved characters pass through,
every other character contributes the percent-encoding of its UTF-8 bytes. -/
def encodeURIComponent : Str → List Nat
  | [] => []
  | c :: s => (if uriUnreserved c then [c] else pctBytes (utf8Char c)) ++ encodeURIComponent s

/-- One step of the deprecated unescape builtin: from the front of the text,
either a %uXXXX sequence, a %XX sequence, or a single literal character
(a % that heads no valid sequence stays literal). -/
def unescapeStep (l : List Nat) : Option (Nat × List Nat) :=
  match take1 l with
  | none => none
  | some p1 =>
    if p1.1 = 37 then
      match take1 p1.2 with
      | none => some (p1.1, p1.2)
      | some pd =>
        if pd.1 = 117 then
          match take1 pd.2 with
          | none => some (p1.1, p1.2)
          | some q1 =>
            match take1 q1.2 with
            | none => some (p1.1, p1.2)
            | some q2 =>
              match take1 q2.2 with
              | none => some (p1.1, p1.2)
              | some q3 =>
                match take1 q3.2 with
                | none => some (p1.1, p1.2)
                | some q4 =>
                  match hexVal q1.1, hexVal q2.1, hexVal q3.1, hexVal q4.1 with
                  | some a, some b, some c, some d =>
                    some (a * 4096 + b * 256 + c * 16 + d, q4.2)
                  | _, _, _, _ => some (p1.1, p1.2)
        else
          match take1 pd.2 with
          | none => some (p1.1, p1.2)
          | some p2 =>
            match hexVal pd.1, hexVal p2.1 with
            | some a, some b => some (a * 16 + b, p2.2)
            | _, _ => some (p1.1, p1.2)
    else some (p1.1, p1.2)

/-- Fuelled driver for unescape; every step consumes at least one character,
so fuel equal to the input length never runs out. -/
def unescapeAux : Nat → List Nat → Str
  | 0, _ => []
  | fuel+1, l =>
    match unescapeStep l with
    | none => []
    | some p => p.1 :: unescapeAux fuel p.2

/-- The deprecated unescape builtin. -/
def unescape (l : List Nat) : Str := unescapeAux l.length l

theorem unescapeStep_lit (c : Nat) (t : List Nat) (h : ¬ (c = 37)) :
    unescapeStep (c :: t) = some (c, t) := by
  simp [unescapeStep, take1, if_neg h]

theorem unescapeStep_pct (b : Nat) (t : List Nat) (hb : b < 256) :
    unescapeStep (37 :: hexUpper (b / 16) :: hexUpper (b % 16) :: t) = some (b, t) := by
  have h1 : b / 16 < 16 := by omega
  have h2 : b % 16 < 16 := by omega
  have hne : ¬ (hexUpper (b / 16) = 117) := by have := hexUpper_lt _ h1; omega
  simp only [unescapeStep, take1, if_pos rfl, if_neg hne,
    hexVal_hexUpper _ h1, hexVal_hexUpper _ h2]
  have : b / 16 * 16 + b % 16 = b := by omega
  rw [this]
  simp

theorem unescapeAux_pct (bs : List Nat) (hb : ∀ b ∈ bs, b < 256) :
    ∀ fuel t, unescapeAux (bs.length + fuel) (pctBytes bs ++ t) = bs ++ unescapeAux fuel t := by
  induction bs with
  | nil => intro fuel t; simp [pctBytes]
  | cons b bs ih =>
    intro fuel t
    have hb1 : b < 256 := hb b (by simp)
    show unescapeAux (bs.length + 1 + fuel)
      (37 :: hexUpper (b / 16) :: hexUpper (b % 16) :: (pctBytes bs ++ t)) = _
    have : bs.length + 1 + fuel = (bs.length + fuel) + 1 := by omega
    rw [this, unescapeAux, unescapeStep_pct b _ hb1]
    show b :: unescapeAux (bs.length + fuel) (pctBytes bs ++ t) = _
    rw [ih (fun x hx => hb x (by simp [hx])) fuel t]
    rfl

/-- The unicode-safe trick of handleShare: unescape of encodeURIComponent
computes exactly the UTF-8 byte string of the input. -/
theorem unescape_encodeURIComponent (s : Str) (h : validStr s) :
    unescape (encodeURIComponent s) = utf8Encode s := by
  suffices haux : ∀ fuel s2, validStr s2 → (encodeURIComponent s2).length ≤ fuel →
      unescapeAux fuel (encodeURIComponent s2) = utf8Encode s2 by
    exact haux _ s h le_rfl
  intro fuel
  induction fuel using Nat.strong_induction_on with
  | _ fuel ih =>
    intro s2 hv hlen
    match s2 with
    | [] =>
      cases fuel <;> simp [encodeURIComponent, unescapeAux, unescapeStep, take1, utf8Encode]
    | c :: s3 =>
      have hc : scalar c := hv c (by simp)
      by_cases hu : uriUnreserved c = true
      · obtain ⟨hlt, hne⟩ := uriUnreserved_bounds c hu
        have he : encodeURIComponent (c :: s3) = c :: encodeURIComponent s3 := by
          rw [encodeURIComponent, if_pos hu, List.singleton_append]
        rw [he] at hlen ⊢
        obtain ⟨f2, rfl⟩ : ∃ f, fuel = f + 1 := ⟨fuel - 1, by simp at hlen; omega⟩
        rw [unescapeAux, unescapeStep_lit c _ hne]
        show c :: unescapeAux f2 (encodeURIComponent s3) = utf8Encode (c :: s3)
        have hrec := ih f2 (by omega) s3 (fun x hx => hv x (by simp [hx]))
          (by simp at hlen; omega)
        rw [hrec]
        rw [show utf8Encode (c :: s3) = utf8Char c ++ utf8Encode s3 from rfl]
        rw [show utf8Char c = [c] by unfold utf8Char; rw [if_pos hlt]]
        rfl
      · have he : encodeURIComponent (c :: s3) =
            pctBytes (utf8Char c) ++ encodeURIComponent s3 := by
          rw [encodeURIComponent, if_neg hu]
        rw [he] at hlen ⊢
        have hblen : (pctBytes (utf8Char c)).length = 3 * (utf8Char c).length := by
          generalize utf8Char c = l
          induction l with
          | nil => rfl
          | cons x xs ihl => simp [pctBytes] at ihl ⊢; omega
        have hcpos : 0 < (utf8Char c).length := utf8Char_length_pos c
        obtain ⟨f2, hf2⟩ : ∃ f, fuel = (utf8Char c).length + f :=
          ⟨fuel - (utf8Char c).length, by simp [List.length_append] at hlen; omega⟩
        rw [hf2]
        rw [unescapeAux_pct (utf8Char c) (utf8Char_bytes_lt c hc)]
        have hrec := ih f2 (by omega) s3 (fun x hx => hv x (by simp [hx]))
          (by simp [List.length_append] at hlen; omega)
        rw [hrec]
        rfl

/-- Characters the deprecated escape builtin leaves unescaped:
letters, digits, and @ * _ + - . / -/
def escapeSafe (c : Nat) : Bool :=
  (decide (65 ≤ c) && decide (c ≤ 90)) || (decide (97 ≤ c) && decide (c ≤ 122)) ||
  (decide (48 ≤ c) && decide (c ≤ 57)) ||
  decide (c = 64) || decide (c = 42) || decide (c = 95) || decide (c = 43) ||
  decide (c = 45) || decide (c = 46) || decide (c = 47)

theorem escapeSafe_bounds (c : Nat) (h : escapeSafe c = true) : c < 128 ∧ c ≠ 37 := by
  simp only [escapeSafe, Bool.or_eq_true, Bool.and_eq_true, decide_eq_true_eq] at h
  omega

/-- The deprecated escape builtin: safe characters pass through, characters
below 256 become %XX, larger code units would become %uXXXX (the callers here
only feed it atob output, whose char codes are all below 256). -/
def escape : Str → List Nat
  | [] => []
  | c :: s =>
    (if escapeSafe c then [c]
     else if c < 256 then [37, hexUpper (c / 16), hexUpper (c % 16)]
     else [37, 117, hexUpper (c / 4096 % 16), hexUpper (c / 256 % 16),
           hexUpper (c / 16 % 16), hexUpper (c % 16)]) ++ escape s

/-- One step of percent-decoding inside the decodeURIComponent builtin:
either a %XX group or a literal ASCII character standing for its own byte
(the inputs fed to it here, escape outputs, are ASCII-only). -/
def pctStep (l : List Nat) : Option (Nat × List Nat) :=
  match take1 l with
  | none => none
  | some p1 =>
    if p1.1 = 37 then
      match take1 p1.2 with
      | none => none
      | some p2 =>
        match take1 p2.2 with
        | none => none
        | some p3 =>
          match hexVal p2.1, hexVal p3.1 with
          | some a, some b => some (a * 16 + b, p3.2)
          | _, _ => none
    else if p1.1 < 128 then some (p1.1, p1.2) else none

/-- Fuelled percent-decoding driver; fuel equal to the input length never
runs out since every step consumes at least one character. -/
def pctDecodeAux : Nat → List Nat → Option (List Nat)
  | 0, l => if l = [] then some [] else none
  | fuel+1, l =>
    if l = [] then some []
    else do
      let p ← pctStep l
      let bs ← pctDecodeAux fuel p.2
      pure (p.1 :: bs)

/-- The decodeURIComponent builtin: percent-decode to bytes, then strict
UTF-8 decode; none (a URIError in the browser) on malformed input. -/
def decodeURIComponent (t : List Nat) : Option Str :=
  (pctDecodeAux t.length t).bind utf8Decode

theorem pctStep_lit (c : Nat) (t : List Nat) (h1 : ¬ (c = 37)) (h2 : c < 128) :
    pctStep (c :: t) = some (c, t) := by
  simp [pctStep, take1, if_neg h1, if_pos h2]

theorem pctStep_pct (b : Nat) (t : List Nat) (hb : b < 256) :
    pctStep (37 :: hexUpper (b / 16) :: hexUpper (b % 16) :: t) = some (b, t) := by
  have h1 : b / 16 < 16 := by omega
  have h2 : b % 16 < 16 := by omega
  simp only [pctStep, take1, if_pos rfl, hexVal_hexUpper _ h1, hexVal_hexUpper _ h2]
  have : b / 16 * 16 + b % 16 = b := by omega
  rw [this]
  simp

theorem escape_ne_nil_cons (c : Nat) (s : Str) : escape (c :: s) ≠ [] := by
  rw [escape]
  split_ifs <;> simp

theorem pctDecodeAux_escape (bs : List Nat) (hb : ∀ b ∈ bs, b < 256) :
    ∀ fuel, pctDecodeAux (bs.length + fuel) (escape bs) =
      (pctDecodeAux fuel []).map (fun r => bs ++ r) := by
  induction bs with
  | nil =>
    intro fuel
    simp only [List.length_nil, Nat.zero_add, escape]
    cases fuel <;> simp [pctDecodeAux]
  | cons b bs ih =>
    intro fuel
    have hb1 : b < 256 := hb b (by simp)
    have hstep : pctStep (escape (b :: bs)) = some (b, escape bs) := by
      rw [escape]
      by_cases hs : escapeSafe b = true
      · obtain ⟨hlt, hne⟩ := escapeSafe_bounds b hs
        rw [if_pos hs, List.singleton_append, pctStep_lit b _ hne hlt]
      · rw [if_neg hs, if_pos hb1, List.cons_append, List.cons_append,
          List.cons_append, List.nil_append, pctStep_pct b _ hb1]
    have hne2 : ¬ (escape (b :: bs) = []) := escape_ne_nil_cons b bs
    have : bs.length + 1 + fuel = (bs.length + fuel) + 1 := by omega
    rw [show (b :: bs).length = bs.length + 1 from rfl, this, pctDecodeAux, if_neg hne2]
    simp only [hstep, Option.bind_eq_bind, Option.some_bind]
    rw [ih (fun x hx => hb x (by simp [hx])) fuel]
    cases pctDecodeAux fuel [] <;> rfl

theorem escape_length_ge : ∀ bs : List Nat, bs.length ≤ (escape bs).length := by
  intro bs
  induction bs with
  | nil => simp [escape]
  | cons b t iht =>
    rw [escape]
    split_ifs <;> simp <;> omega

/-- On byte strings (which is all atob can hand it), decodeURIComponent of
escape is exactly strict UTF-8 decoding. -/
theorem decodeURIComponent_escape (bs : List Nat) (hb : ∀ b ∈ bs, b < 256) :
    decodeURIComponent (escape bs) = utf8Decode bs := by
  have hlen : bs.length ≤ (escape bs).length := escape_length_ge bs
  obtain ⟨f2, hf2⟩ : ∃ f, (escape bs).length = bs.length + f :=
    ⟨(escape bs).length - bs.length, by omega⟩
  rw [decodeURIComponent, hf2, pctDecodeAux_escape bs hb f2]
  have hnil : pctDecodeAux f2 [] = some [] := by cases f2 <;> simp [pctDecodeAux]
  rw [hnil]
  simp

/-! ## JSON values, JSON.stringify and JSON.parse

The app serializes whole Conlang records with JSON.stringify and reads them
back with JSON.parse.  JSON values are modelled by a mutual inductive; the
only numbers the app ever serializes are non-negative integers (the
createdAt timestamp), so numbers are modelled as Nat and the parser rejects
fractional or signed forms, which JSON.parse would accept but which no
serialized record contains. -/

mutual
inductive Json where
  | str (s : Str)
  | num (n : Nat)
  | bool (b : Bool)
  | null
  | arr (xs : JsonArr)
  | obj (xs : JsonObj)
deriving DecidableEq

inductive JsonArr where
  | nil
  | cons (hd : Json) (tl : JsonArr)
deriving DecidableEq

inductive JsonObj where
  | nil
  | cons (k : Str) (v : Json) (tl : JsonObj)
deriving DecidableEq
end

/-- Lowercase hex digit character, as in the \u00xx escapes JSON.stringify
emits for rare control characters. -/
def hexLower (v : Nat) : Nat := if v < 10 then 48 + v else 97 + (v - 10)

theorem hexVal_hexLower (v : Nat) (h : v < 16) : hexVal (hexLower v) = some v := by
  revert v; decide

/-- JSON string-body escaping as performed by JSON.stringify: quote and
backslash get two-character escapes, the common control characters get short
escapes, the remaining control characters get \u00xx, and every other
character (ASCII or not) is emitted literally.  (Well-formed JSON.stringify
escapes lone surrogates as \udxxx; records under consideration contain only
Unicode scalar values, where the builtin emits the character literally.) -/
def renderStringBody : Str → List Nat
  | [] => []
  | c :: cs =>
    (if c = 34 then [92, 34]
     else if c = 92 then [92, 92]
     else if c = 8 then [92, 98]
     else if c = 9 then [92, 116]
     else if c = 10 then [92, 110]
     else if c = 12 then [92, 102]
     else if c = 13 then [92, 114]
     else if c < 32 then [92, 117, 48, 48, hexLower (c / 16), hexLower (c % 16)]
     else [c]) ++ renderStringBody cs

/-- Decimal digit characters of a natural number, most significant first,
as JSON.stringify prints the integer timestamps of a record. -/
def natDigits (n : Nat) : List Nat :=
  if n < 10 then [48 + n] else natDigits (n / 10) ++ [48 + n % 10]
termination_by n
decreasing_by omega

mutual
/-- JSON.stringify on a JSON value: compact output, no whitespace, object
fields in insertion order. -/
def renderJson : Json → List Nat
  | .str s => 34 :: (renderStringBody s ++ [34])
  | .num n => natDigits n
  | .bool b => if b then [116, 114, 117, 101] else [102, 97, 108, 115, 101]
  | .null => [110, 117, 108, 108]
  | .arr .nil => [91, 93]
  | .arr (.cons v t) => 91 :: renderArrItems v t
  | .obj .nil => [123, 125]
  | .obj (.cons k v t) => 123 :: renderObjItems k v t
termination_by v => sizeOf v
decreasing_by all_goals (simp <;> omega)

/-- The comma-separated elements of a non-empty array, with the closing
bracket. -/
def renderArrItems : Json → JsonArr → List Nat
  | v, .nil => renderJson v ++ [93]
  | v, .cons w t => renderJson v ++ (44 :: renderArrItems w t)
termination_by v t => sizeOf v + sizeOf t
decreasing_by all_goals (simp <;> omega)

/-- The comma-separated members of a non-empty object, with the closing
brace. -/
def renderObjItems : Str → Json → JsonObj → List Nat
  | k, v, .nil => 34 :: (renderStringBody k ++ (34 :: (58 :: (renderJson v ++ [125]))))
  | k, v, .cons k2 v2 t =>
    34 :: (renderStringBody k ++ (34 :: (58 :: (renderJson v ++ (44 :: renderObjItems k2 v2 t)))))
termination_by k v t => sizeOf v + sizeOf t
decreasing_by all_goals (simp <;> omega)
end

/-- JSON whitespace, skipped freely by JSON.parse. -/
def jsonWs (c : Nat) : Bool :=
  decide (c = 32) || decide (c = 9) || decide (c = 10) || decide (c = 13)

def skipWs : List Nat → List Nat
  | [] => []
  | c :: rest => if jsonWs c then skipWs rest else c :: rest

/-- One step inside a JSON string literal: the closing quote (signalled by
the none component), an escape sequence, or a literal character; none on
unterminated or malformed input, or on a raw control character, which
JSON.parse rejects.  A \uxxxx escape yields the raw UTF-16 code unit, as in
JSON.parse; the serializer only emits \u00xx forms, so surrogate-pair
recombination never arises on round-tripped text. -/
def strStep (l : List Nat) : Option (Option Nat × List Nat) :=
  match take1 l with
  | none => none
  | some p1 =>
    if p1.1 = 34 then some (none, p1.2)
    else if p1.1 = 92 then
      match take1 p1.2 with
      | none => none
      | some pe =>
        if pe.1 = 34 then some (some 34, pe.2)
        else if pe.1 = 92 then some (some 92, pe.2)
        else if pe.1 = 47 then some (some 47, pe.2)
        else if pe.1 = 98 then some (some 8, pe.2)
        else if pe.1 = 116 then some (some 9, pe.2)
        else if pe.1 = 110 then some (some 10, pe.2)
        else if pe.1 = 102 then some (some 12, pe.2)
        else if pe.1 = 114 then some (some 13, pe.2)
        else if pe.1 = 117 then
          match take1 pe.2 with
          | none => none
          | some q1 =>
            match take1 q1.2 with
            | none => none
            | some q2 =>
              match take1 q2.2 with
              | none => none
              | some q3 =>
                match take1 q3.2 with
                | none => none
                | some q4 =>
                  match hexVal q1.1, hexVal q2.1, hexVal q3.1, hexVal q4.1 with
                  | some a, some b, some c, some d =>
                    some (some (a * 4096 + b * 256 + c * 16 + d), q4.2)
                  | _, _, _, _ => none
        else none
    else if p1.1 < 32 then none
    else some (some p1.1, p1.2)

/-- Fuelled JSON string-literal parser (the text after the opening quote);
every step consumes at least one character, so fuel one more than the input
length never runs out. -/
def parseStringAux : Nat → List Nat → Option (Str × List Nat)
  | 0, _ => none
  | fuel+1, l =>
    match strStep l with
    | none => none
    | some (none, rest) => some ([], rest)
    | some (some c, rest) => (parseStringAux fuel rest).map (fun p => (c :: p.1, p.2))

/-- JSON string-literal parser (the text after the opening quote); the fuel
of one more than the input length always suffices. -/
def parseString (l : List Nat) : Option (Str × List Nat) :=
  parseStringAux (l.length + 1) l

/-- Digit-run accumulator for JSON integer literals. -/
def parseDigits : Nat → List Nat → Nat × List Nat
  | acc, [] => (acc, [])
  | acc, c :: rest =>
    if 48 ≤ c ∧ c ≤ 57 then parseDigits (acc * 10 + (c - 48)) rest else (acc, c :: rest)

/-- Match an expected literal character sequence (used for true, false,
null). -/
def expectChars : List Nat → List Nat → Option (List Nat)
  | [], l => some l
  | c :: cs, l =>
    match take1 l with
    | none => none
    | some p => if p.1 = c then expectChars cs p.2 else none

mutual
/-- Fuelled JSON value parser, the model of JSON.parse: skip whitespace and
dispatch on the first character.  Accepts exactly the JSON grammar except
that numbers are restricted to unsigned integer literals (see above). -/
def parseValue : Nat → List Nat → Option (Json × List Nat)
  | 0, _ => none
  | fuel+1, input =>
    match take1 (skipWs input) with
    | none => none
    | some q =>
      if q.1 = 34 then
        (parseString q.2).map (fun p => (Json.str p.1, p.2))
      else if q.1 = 91 then
        match take1 (skipWs q.2) with
        | none => none
        | some q2 =>
          if q2.1 = 93 then some (Json.arr JsonArr.nil, q2.2)
          else (parseArrItems fuel (skipWs q.2)).map (fun p => (Json.arr p.1, p.2))
      else if q.1 = 123 then
        match take1 (skipWs q.2) with
        | none => none
        | some q2 =>
          if q2.1 = 125 then some (Json.obj JsonObj.nil, q2.2)
          else (parseObjItems fuel (skipWs q.2)).map (fun p => (Json.obj p.1, p.2))
      else if 48 ≤ q.1 ∧ q.1 ≤ 57 then
        let p := parseDigits 0 (q.1 :: q.2)
        some (Json.num p.1, p.2)
      else if q.1 = 116 then
        (expectChars [114, 117, 101] q.2).map (fun r => (Json.bool true, r))
      else if q.1 = 102 then
        (expectChars [97, 108, 115, 101] q.2).map (fun r => (Json.bool false, r))
      else if q.1 = 110 then
        (expectChars [117, 108, 108] q.2).map (fun r => (Json.null, r))
      else none

/-- Elements of a non-empty array (input already positioned at the first
element): a value, then either a comma and more elements or the closing
bracket. -/
def parseArrItems : Nat → List Nat → Option (JsonArr × List Nat)
  | 0, _ => none
  | fuel+1, l =>
    match parseValue fuel l with
    | none => none
    | some p =>
      match take1 (skipWs p.2) with
      | none => none
      | some q =>
        if q.1 = 44 then
          (parseArrItems fuel q.2).map (fun r => (JsonArr.cons p.1 r.1, r.2))
        else if q.1 = 93 then some (JsonArr.cons p.1 JsonArr.nil, q.2)
        else none

/-- Members of a non-empty object (input already positioned at the first
key): a quoted key, a colon, a value, then either a comma and more members
or the closing brace. -/
def parseObjItems : Nat → List Nat → Option (JsonObj × List Nat)
  | 0, _ => none
  | fuel+1, l =>
    match take1 l with
    | none => none
    | some q0 =>
      if q0.1 = 34 then
        match parseString q0.2 with
        | none => none
        | some pk =>
          match take1 (skipWs pk.2) with
          | none => none
          | some qc =>
            if qc.1 = 58 then
              match parseValue fuel qc.2 with
              | none => none
              | some pv =>
                match take1 (skipWs pv.2) with
                | none => none
                | some q2 =>
                  if q2.1 = 44 then
                    (parseObjItems fuel (skipWs q2.2)).map
                      (fun r => (JsonObj.cons pk.1 pv.1 r.1, r.2))
                  else if q2.1 = 125 then some (JsonObj.cons pk.1 pv.1 JsonObj.nil, q2.2)
                  else none
            else none
      else none
end

/-! The fuel a parse of a rendered value needs: one unit per level of the
parser call graph. -/
mutual
def fuelV : Json → Nat
  | .str _ => 1
  | .num _ => 1
  | .bool _ => 1
  | .null => 1
  | .arr a => fuelA a + 1
  | .obj o => fuelO o + 1

def fuelA : JsonArr → Nat
  | .nil => 0
  | .cons v t => max (fuelV v) (fuelA t) + 1

def fuelO : JsonObj → Nat
  | .nil => 0
  | .cons _ v t => max (fuelV v) (fuelO t) + 1
end

/-- The JSON.parse builtin on a whole document: one value with only trailing
whitespace allowed. -/
def parseJsonTop (t : List Nat) : Option Json :=
  match parseValue (t.length + 1) t with
  | none => none
  | some p => if skipWs p.2 = [] then some p.1 else none

theorem skipWs_cons_not (c : Nat) (t : List Nat) (h : jsonWs c = false) :
    skipWs (c :: t) = c :: t := by
  rw [skipWs, h]
  rfl

theorem strStep_close (t : List Nat) : strStep (34 :: t) = some (none, t) := by
  simp [strStep, take1]

theorem strStep_lit (c : Nat) (t : List Nat) (h1 : ¬ (c = 34)) (h2 : ¬ (c = 92))
    (h3 : ¬ (c < 32)) : strStep (c :: t) = some (some c, t) := by
  simp only [strStep, take1, if_neg h1, if_neg h2, if_neg h3]

theorem strStep_u (c : Nat) (t : List Nat) (h : c < 32) :
    strStep (92 :: 117 :: 48 :: 48 :: hexLower (c / 16) :: hexLower (c % 16) :: t) =
      some (some c, t) := by
  have h1 : c / 16 < 16 := by omega
  have h2 : c % 16 < 16 := by omega
  have h48 : hexVal 48 = some 0 := by decide
  simp only [strStep, take1, h48, hexVal_hexLower _ h1, hexVal_hexLower _ h2]
  norm_num
  omega

theorem renderStringBody_length_ge (s : Str) : s.length ≤ (renderStringBody s).length := by
  induction s with
  | nil => simp [renderStringBody]
  | cons c cs ih =>
    rw [renderStringBody]
    split_ifs <;> simp <;> omega

/-- Parsing a rendered string body (plus closing quote) recovers the
string. -/
theorem parseStringAux_render (s : Str) : ∀ fuel rest, s.length + 1 ≤ fuel →
    parseStringAux fuel (renderStringBody s ++ (34 :: rest)) = some (s, rest) := by
  induction s with
  | nil =>
    intro fuel rest hf
    obtain ⟨f, rfl⟩ : ∃ f, fuel = f + 1 := ⟨fuel - 1, by omega⟩
    rw [show renderStringBody [] ++ (34 :: rest) = 34 :: rest from rfl]
    rw [parseStringAux, strStep_close]
  | cons c cs ih =>
    intro fuel rest hf
    obtain ⟨f, rfl⟩ : ∃ f, fuel = f + 1 := ⟨fuel - 1, by omega⟩
    have ihf := ih f rest (by simp at hf; omega)
    rw [renderStringBody, List.append_assoc]
    have hfin : ∀ pre : List Nat,
        strStep (pre ++ (renderStringBody cs ++ (34 :: rest))) =
          some (some c, renderStringBody cs ++ (34 :: rest)) →
        parseStringAux (f + 1)
          (pre ++ (renderStringBody cs ++ (34 :: rest))) = some (c :: cs, rest) := by
      intro pre hstep
      rw [parseStringAux, hstep]
      show (parseStringAux f (renderStringBody cs ++ (34 :: rest))).map _ = _
      rw [ihf]
      rfl
    by_cases e1 : c = 34
    · subst e1
      refine hfin _ ?_
      simp [strStep, take1]
    · by_cases e2 : c = 92
      · subst e2
        refine hfin _ ?_
        simp [strStep, take1]
      · by_cases e3 : c = 8
        · subst e3
          refine hfin _ ?_
          simp [strStep, take1]
        · by_cases e4 : c = 9
          · subst e4
            refine hfin _ ?_
            simp [strStep, take1]
          · by_cases e5 : c = 10
            · subst e5
              refine hfin _ ?_
              simp [strStep, take1]
            · by_cases e6 : c = 12
              · subst e6
                refine hfin _ ?_
                simp [strStep, take1]
              · by_cases e7 : c = 13
                · subst e7
                  refine hfin _ ?_
                  simp [strStep, take1]
                · by_cases e8 : c < 32
                  · rw [if_neg e1, if_neg e2, if_neg e3, if_neg e4, if_neg e5,
                      if_neg e6, if_neg e7, if_pos e8]
                    exact hfin _ (strStep_u c _ e8)
                  · rw [if_neg e1, if_neg e2, if_neg e3, if_neg e4, if_neg e5,
                      if_neg e6, if_neg e7, if_neg e8]
                    exact hfin _ (strStep_lit c _ e1 e2 e8)

theorem natDigits_digits (n : Nat) : ∀ d ∈ natDigits n, 48 ≤ d ∧ d ≤ 57 := by
  induction n using Nat.strong_induction_on with
  | _ n ih =>
    rw [natDigits]
    split_ifs with h
    · intro d hd; simp at hd; omega
    · intro d hd
      simp only [List.mem_append, List.mem_singleton] at hd
      rcases hd with hd | hd
      · exact ih (n / 10) (by omega) d hd
      · omega

theorem natDigits_ne_nil (n : Nat) : natDigits n ≠ [] := by
  rw [natDigits]
  split_ifs <;> simp

theorem parseDigits_append (n : Nat) : ∀ acc rest,
    parseDigits acc (natDigits n ++ rest) =
      parseDigits (acc * 10 ^ (natDigits n).length + n) rest := by
  induction n using Nat.strong_induction_on with
  | _ n ih =>
    intro acc rest
    by_cases h : n < 10
    · rw [show natDigits n = [48 + n] from by rw [natDigits]; rw [if_pos h]]
      rw [List.singleton_append, parseDigits, if_pos (by omega)]
      have : acc * 10 + (48 + n - 48) = acc * 10 ^ [48 + n].length + n := by
        simp only [List.length_singleton, pow_one]
        omega
      rw [this]
    · rw [show natDigits n = natDigits (n / 10) ++ [48 + n % 10] from by
        conv_lhs => rw [natDigits]
        rw [if_neg h]]
      rw [List.append_assoc, List.singleton_append,
        ih (n / 10) (by omega) acc ((48 + n % 10) :: rest)]
      rw [parseDigits, if_pos (by omega)]
      congr 1
      have hlen : (natDigits (n / 10) ++ [48 + n % 10]).length =
          (natDigits (n / 10)).length + 1 := by simp
      rw [hlen, pow_succ]
      have : 48 + n % 10 - 48 = n % 10 := by omega
      rw [this]
      ring_nf
      omega

theorem parseDigits_stop (acc : Nat) (rest : List Nat)
    (h : ∀ d ds, rest = d :: ds → ¬ (48 ≤ d ∧ d ≤ 57)) :
    parseDigits acc rest = (acc, rest) := by
  cases rest with
  | nil => rfl
  | cons d ds =>
    rw [parseDigits, if_neg (h d ds rfl)]

/-- Parsing the decimal rendering of a natural number recovers it, provided
the following character is not a digit. -/
theorem parseDigits_natDigits (n : Nat) (rest : List Nat)
    (h : ∀ d ds, rest = d :: ds → ¬ (48 ≤ d ∧ d ≤ 57)) :
    parseDigits 0 (natDigits n ++ rest) = (n, rest) := by
  rw [parseDigits_append n 0 rest, parseDigits_stop _ _ h]
  simp

theorem jsonWs_false_of_ge (c : Nat) (h : 33 ≤ c) : jsonWs c = false := by
  simp only [jsonWs, Bool.or_eq_false_iff, decide_eq_false_iff_not]
  omega

theorem natDigits_cons (n : Nat) : ∃ d ds, natDigits n = d :: ds ∧ 48 ≤ d ∧ d ≤ 57 := by
  cases hnd : natDigits n with
  | nil => exact absurd hnd (natDigits_ne_nil n)
  | cons d ds =>
    refine ⟨d, ds, rfl, ?_⟩
    have := natDigits_digits n d (by rw [hnd]; simp)
    exact this

theorem renderJson_head (v : Json) :
    ∃ c t, renderJson v = c :: t ∧ jsonWs c = false ∧ ¬ (c = 93) := by
  cases v with
  | str s =>
    exact ⟨34, renderStringBody s ++ [34], by rw [renderJson], by decide, by decide⟩
  | num n =>
    obtain ⟨d, ds, hnd, h1, h2⟩ := natDigits_cons n
    exact ⟨d, ds, by rw [renderJson]; exact hnd,
      jsonWs_false_of_ge d (by omega), by omega⟩
  | bool b =>
    cases b
    · exact ⟨102, [97, 108, 115, 101], by rw [renderJson]; rfl, by decide, by decide⟩
    · exact ⟨116, [114, 117, 101], by rw [renderJson]; rfl, by decide, by decide⟩
  | null => exact ⟨110, [117, 108, 108], by rw [renderJson], by decide, by decide⟩
  | arr a =>
    cases a with
    | nil => exact ⟨91, [93], by rw [renderJson], by decide, by decide⟩
    | cons v2 t =>
      exact ⟨91, renderArrItems v2 t, by rw [renderJson], by decide, by decide⟩
  | obj o =>
    cases o with
    | nil => exact ⟨123, [125], by rw [renderJson], by decide, by decide⟩
    | cons k v2 t =>
      exact ⟨123, renderObjItems k v2 t, by rw [renderJson], by decide, by decide⟩

theorem renderArrItems_head (v : Json) (t : JsonArr) :
    ∃ c r, renderArrItems v t = c :: r ∧ jsonWs c = false ∧ ¬ (c = 93) := by
  obtain ⟨c, r, hv, hw, h93⟩ := renderJson_head v
  cases t with
  | nil => exact ⟨c, r ++ [93], by rw [renderArrItems, hv]; rfl, hw, h93⟩
  | cons w t2 =>
    exact ⟨c, r ++ (44 :: renderArrItems w t2), by rw [renderArrItems, hv]; rfl, hw, h93⟩

mutual
theorem fuelV_le_length (v : Json) : fuelV v ≤ (renderJson v).length := by
  cases v with
  | str s => simp [fuelV, renderJson]
  | num n =>
    obtain ⟨d, ds, hnd, _, _⟩ := natDigits_cons n
    simp [fuelV, renderJson, hnd]
  | bool b => cases b <;> simp [fuelV, renderJson]
  | null => simp [fuelV, renderJson]
  | arr a =>
    cases a with
    | nil => simp [fuelV, fuelA, renderJson]
    | cons v2 t =>
      have := fuelA_le_length v2 t
      simp only [fuelV, renderJson, List.length_cons]
      omega
  | obj o =>
    cases o with
    | nil => simp [fuelV, fuelO, renderJson]
    | cons k v2 t =>
      have := fuelO_le_length k v2 t
      simp only [fuelV, renderJson, List.length_cons]
      omega
termination_by sizeOf v
decreasing_by all_goals (simp <;> omega)

theorem fuelA_le_length (v : Json) (t : JsonArr) :
    fuelA (JsonArr.cons v t) ≤ (renderArrItems v t).length := by
  cases t with
  | nil =>
    have := fuelV_le_length v
    simp only [fuelA, fuelV, renderArrItems, List.length_append, List.length_singleton]
    omega
  | cons w t2 =>
    have h1 := fuelV_le_length v
    have h2 := fuelA_le_length w t2
    simp only [fuelA, renderArrItems, List.length_append, List.length_cons] at h2 ⊢
    omega
termination_by sizeOf v + sizeOf t
decreasing_by all_goals (simp <;> omega)

theorem fuelO_le_length (k : Str) (v : Json) (t : JsonObj) :
    fuelO (JsonObj.cons k v t) ≤ (renderObjItems k v t).length := by
  cases t with
  | nil =>
    have := fuelV_le_length v
    simp only [fuelO, fuelA, renderObjItems, List.length_append, List.length_cons,
      List.length_singleton]
    omega
  | cons k2 v2 t2 =>
    have h1 := fuelV_le_length v
    have h2 := fuelO_le_length k2 v2 t2
    simp only [fuelO, renderObjItems, List.length_append, List.length_cons] at h2 ⊢
    omega
termination_by sizeOf v + sizeOf t
decreasing_by all_goals (simp <;> omega)
end

theorem fuelV_pos (v : Json) : 1 ≤ fuelV v := by
  cases v <;> simp [fuelV]

/-- Convenience: heads that appear after a rendered value are never decimal
digits. -/
theorem notDigit_cons (c : Nat) (hc : c < 48 ∨ 57 < c) :
    ∀ {X : List Nat}, ∀ d ds, c :: X = d :: ds → ¬ (48 ≤ d ∧ d ≤ 57) := by
  intro X d ds hh
  obtain ⟨h1, h2⟩ := List.cons.inj hh
  omega

theorem notDigit_nil : ∀ d ds, ([] : List Nat) = d :: ds → ¬ (48 ≤ d ∧ d ≤ 57) := by
  intro d ds hh
  cases hh

theorem take1_cons (c : Nat) (l : List Nat) : take1 (c :: l) = some (c, l) := rfl

mutual
/-- Completeness of the JSON.parse model against the JSON.stringify model:
parsing a rendered value (followed by any text that does not begin with a
digit) returns exactly that value and the trailing text. -/
theorem parseValue_render : ∀ (v : Json) (fuel : Nat) (rest : List Nat),
    fuelV v ≤ fuel → (∀ d ds, rest = d :: ds → ¬ (48 ≤ d ∧ d ≤ 57)) →
    parseValue fuel (renderJson v ++ rest) = some (v, rest)
  | .str s, fuel, rest, h, hrest => by
    obtain ⟨f, rfl⟩ : ∃ f, fuel = f + 1 := ⟨fuel - 1, by simp [fuelV] at h; omega⟩
    have hps : parseString (renderStringBody s ++ (34 :: rest)) = some (s, rest) :=
      parseStringAux_render s _ rest (by
        have := renderStringBody_length_ge s
        simp only [List.length_append, List.length_cons]
        omega)
    rw [show renderJson (Json.str s) = 34 :: (renderStringBody s ++ [34]) from by
      rw [renderJson]]
    rw [List.cons_append, List.append_assoc, List.singleton_append]
    rw [parseValue, skipWs_cons_not 34 _ (by decide)]
    simp only [take1_cons, if_true, if_false, and_true, true_and, and_false, false_and,
      hps, Option.map_some']
  | .num n, fuel, rest, h, hrest => by
    obtain ⟨f, rfl⟩ : ∃ f, fuel = f + 1 := ⟨fuel - 1, by simp [fuelV] at h; omega⟩
    rw [show renderJson (Json.num n) = natDigits n from by rw [renderJson]]
    obtain ⟨d, ds, hnd, hd1, hd2⟩ := natDigits_cons n
    rw [hnd, List.cons_append, parseValue,
      skipWs_cons_not d _ (jsonWs_false_of_ge d (by omega))]
    simp only [take1_cons]
    rw [if_neg (by omega), if_neg (by omega), if_neg (by omega),
      if_pos (show 48 ≤ d ∧ d ≤ 57 from ⟨hd1, hd2⟩)]
    rw [show d :: (ds ++ rest) = natDigits n ++ rest from by rw [hnd]; rfl]
    rw [parseDigits_natDigits n rest hrest]
  | .bool false, fuel, rest, h, hrest => by
    obtain ⟨f, rfl⟩ : ∃ f, fuel = f + 1 := ⟨fuel - 1, by simp [fuelV] at h; omega⟩
    rw [show renderJson (Json.bool false) = [102, 97, 108, 115, 101] from by
      rw [renderJson]; rfl]
    rw [show ([102, 97, 108, 115, 101] : List Nat) ++ rest =
      102 :: 97 :: 108 :: 115 :: 101 :: rest from rfl]
    rw [parseValue, skipWs_cons_not 102 _ (by decide)]
    simp [take1_cons, expectChars, take1]
  | .bool true, fuel, rest, h, hrest => by
    obtain ⟨f, rfl⟩ : ∃ f, fuel = f + 1 := ⟨fuel - 1, by simp [fuelV] at h; omega⟩
    rw [show renderJson (Json.bool true) = [116, 114, 117, 101] from by
      rw [renderJson]; rfl]
    rw [show ([116, 114, 117, 101] : List Nat) ++ rest =
      116 :: 114 :: 117 :: 101 :: rest from rfl]
    rw [parseValue, skipWs_cons_not 116 _ (by decide)]
    simp [take1_cons, expectChars, take1]
  | .null, fuel, rest, h, hrest => by
    obtain ⟨f, rfl⟩ : ∃ f, fuel = f + 1 := ⟨fuel - 1, by simp [fuelV] at h; omega⟩
    rw [show renderJson Json.null = [110, 117, 108, 108] from by rw [renderJson]]
    rw [show ([110, 117, 108, 108] : List Nat) ++ rest =
      110 :: 117 :: 108 :: 108 :: rest from rfl]
    rw [parseValue, skipWs_cons_not 110 _ (by decide)]
    simp [take1_cons, expectChars, take1]
  | .arr .nil, fuel, rest, h, hrest => by
    obtain ⟨f, rfl⟩ : ∃ f, fuel = f + 1 := ⟨fuel - 1, by simp [fuelV] at h; omega⟩
    rw [show renderJson (Json.arr JsonArr.nil) = [91, 93] from by rw [renderJson]]
    rw [show ([91, 93] : List Nat) ++ rest = 91 :: 93 :: rest from rfl]
    rw [parseValue, skipWs_cons_not 91 _ (by decide)]
    simp [take1_cons, skipWs_cons_not 93 _ (by decide)]
  | .arr (.cons v t), fuel, rest, h, hrest => by
    obtain ⟨f, rfl⟩ : ∃ f, fuel = f + 1 := ⟨fuel - 1, by simp [fuelV] at h; omega⟩
    have hfa : fuelA (JsonArr.cons v t) ≤ f := by
      simp only [fuelV] at h; omega
    obtain ⟨c0, r0, hri, hw0, h93⟩ := renderArrItems_head v t
    have hskId : skipWs (renderArrItems v t ++ rest) = renderArrItems v t ++ rest := by
      conv_lhs => rw [hri, List.cons_append, skipWs_cons_not c0 _ hw0]
      rw [hri]
      rfl
    have ht1 : take1 (renderArrItems v t ++ rest) = some (c0, r0 ++ rest) := by
      rw [hri]
      rfl
    have hrec := parseArrItems_render v t f rest hfa
    rw [show renderJson (Json.arr (JsonArr.cons v t)) = 91 :: renderArrItems v t from by
      rw [renderJson]]
    rw [List.cons_append, parseValue, skipWs_cons_not 91 _ (by decide)]
    simp only [take1_cons, if_true, if_false, and_true, true_and, and_false, false_and,
      hskId, ht1, if_neg h93, hrec, Option.map_some',
      (show ¬ ((91 : Nat) = 34) from by decide)]
  | .obj .nil, fuel, rest, h, hrest => by
    obtain ⟨f, rfl⟩ : ∃ f, fuel = f + 1 := ⟨fuel - 1, by simp [fuelV] at h; omega⟩
    rw [show renderJson (Json.obj JsonObj.nil) = [123, 125] from by rw [renderJson]]
    rw [show ([123, 125] : List Nat) ++ rest = 123 :: 125 :: rest from rfl]
    rw [parseValue, skipWs_cons_not 123 _ (by decide)]
    simp [take1_cons, skipWs_cons_not 125 _ (by decide)]
  | .obj (.cons k v t), fuel, rest, h, hrest => by
    obtain ⟨f, rfl⟩ : ∃ f, fuel = f + 1 := ⟨fuel - 1, by simp [fuelV] at h; omega⟩
    have hfo : fuelO (JsonObj.cons k v t) ≤ f := by
      simp only [fuelV] at h; omega
    obtain ⟨R, hR⟩ : ∃ R, renderObjItems k v t = 34 :: R := by
      cases t <;> (rw [renderObjItems]; exact ⟨_, rfl⟩)
    have hskId : skipWs (renderObjItems k v t ++ rest) = renderObjItems k v t ++ rest := by
      conv_lhs => rw [hR, List.cons_append, skipWs_cons_not 34 _ (by decide)]
      rw [hR]
      rfl
    have ht1 : take1 (renderObjItems k v t ++ rest) = some (34, R ++ rest) := by
      rw [hR]
      rfl
    have hrec := parseObjItems_render k v t f rest hfo
    rw [show renderJson (Json.obj (JsonObj.cons k v t)) = 123 :: renderObjItems k v t
      from by rw [renderJson]]
    rw [List.cons_append, parseValue, skipWs_cons_not 123 _ (by decide)]
    simp only [take1_cons, if_true, if_false, and_true, true_and, and_false, false_and,
      hskId, ht1, hrec, Option.map_some',
      (show ¬ ((123 : Nat) = 34) from by decide), (show ¬ ((123 : Nat) = 91) from by decide),
      (show ¬ ((34 : Nat) = 125) from by decide)]
termination_by v _ _ _ _ => sizeOf v
decreasing_by all_goals (simp <;> omega)

theorem parseArrItems_render : ∀ (v : Json) (t : JsonArr) (fuel : Nat) (rest : List Nat),
    fuelA (JsonArr.cons v t) ≤ fuel →
    parseArrItems fuel (renderArrItems v t ++ rest) = some (JsonArr.cons v t, rest)
  | v, .nil, fuel, rest, h => by
    obtain ⟨f, rfl⟩ : ∃ f, fuel = f + 1 := ⟨fuel - 1, by simp only [fuelA] at h; omega⟩
    have hfv : fuelV v ≤ f := by simp only [fuelA] at h; omega
    have hv1 := parseValue_render v f (93 :: rest) hfv (notDigit_cons 93 (by omega))
    rw [show renderArrItems v JsonArr.nil = renderJson v ++ [93] from by
      rw [renderArrItems]]
    rw [List.append_assoc, List.singleton_append]
    rw [parseArrItems]
    simp only [hv1, take1_cons, skipWs_cons_not 93 _ (by decide), if_true, if_false,
      and_true, true_and, and_false, false_and,
      (show ¬ ((93 : Nat) = 44) from by decide)]
  | v, .cons w t2, fuel, rest, h => by
    obtain ⟨f, rfl⟩ : ∃ f, fuel = f + 1 := ⟨fuel - 1, by simp only [fuelA] at h; omega⟩
    have hfv : fuelV v ≤ f := by simp only [fuelA] at h; omega
    have hft : fuelA (JsonArr.cons w t2) ≤ f := by simp only [fuelA] at h ⊢; omega
    have hv1 := parseValue_render v f (44 :: (renderArrItems w t2 ++ rest)) hfv
      (notDigit_cons 44 (by omega))
    have hrec := parseArrItems_render w t2 f rest hft
    rw [show renderArrItems v (JsonArr.cons w t2) =
      renderJson v ++ (44 :: renderArrItems w t2) from by rw [renderArrItems]]
    rw [List.append_assoc]
    rw [show (44 :: renderArrItems w t2) ++ rest = 44 :: (renderArrItems w t2 ++ rest)
      from rfl]
    rw [parseArrItems]
    simp only [hv1, take1_cons, skipWs_cons_not 44 _ (by decide), if_true, if_false,
      and_true, true_and, and_false, false_and, hrec, Option.map_some']
termination_by v t _ _ _ => sizeOf v + sizeOf t
decreasing_by all_goals (simp <;> omega)

theorem parseObjItems_render : ∀ (k : Str) (v : Json) (t : JsonObj) (fuel : Nat)
    (rest : List Nat), fuelO (JsonObj.cons k v t) ≤ fuel →
    parseObjItems fuel (renderObjItems k v t ++ rest) = some (JsonObj.cons k v t, rest)
  | k, v, .nil, fuel, rest, h => by
    obtain ⟨f, rfl⟩ : ∃ f, fuel = f + 1 := ⟨fuel - 1, by simp only [fuelO] at h; omega⟩
    have hfv : fuelV v ≤ f := by simp only [fuelO] at h; omega
    have hkey : ∀ tail : List Nat,
        parseString (renderStringBody k ++ (34 :: tail)) = some (k, tail) := by
      intro tail
      refine parseStringAux_render k _ tail ?_
      have := renderStringBody_length_ge k
      simp only [List.length_append, List.length_cons]
      omega
    have hv1 := parseValue_render v f (125 :: rest) hfv (notDigit_cons 125 (by omega))
    rw [show renderObjItems k v JsonObj.nil =
      34 :: (renderStringBody k ++ (34 :: (58 :: (renderJson v ++ [125])))) from by
      rw [renderObjItems]]
    rw [List.cons_append]
    simp only [List.cons_append, List.append_assoc, List.singleton_append,
      List.nil_append]
    rw [parseObjItems]
    simp only [take1_cons, if_true, if_false, and_true, true_and, and_false, false_and,
      hkey (58 :: (renderJson v ++ (125 :: rest))),
      skipWs_cons_not 58 _ (by decide), hv1,
      skipWs_cons_not 125 _ (by decide),
      (show ¬ ((125 : Nat) = 44) from by decide)]
  | k, v, .cons k2 v2 t2, fuel, rest, h => by
    obtain ⟨f, rfl⟩ : ∃ f, fuel = f + 1 := ⟨fuel - 1, by simp only [fuelO] at h; omega⟩
    have hfv : fuelV v ≤ f := by simp only [fuelO] at h; omega
    have hkey : ∀ tail : List Nat,
        parseString (renderStringBody k ++ (34 :: tail)) = some (k, tail) := by
      intro tail
      refine parseStringAux_render k _ tail ?_
      have := renderStringBody_length_ge k
      simp only [List.length_append, List.length_cons]
      omega
    have hft : fuelO (JsonObj.cons k2 v2 t2) ≤ f := by simp only [fuelO] at h ⊢; omega
    obtain ⟨R, hR⟩ : ∃ R, renderObjItems k2 v2 t2 = 34 :: R := by
      cases t2 <;> (rw [renderObjItems]; exact ⟨_, rfl⟩)
    have hskId : skipWs (renderObjItems k2 v2 t2 ++ rest) =
        renderObjItems k2 v2 t2 ++ rest := by
      conv_lhs => rw [hR, List.cons_append, skipWs_cons_not 34 _ (by decide)]
      rw [hR]
      rfl
    have hv1 := parseValue_render v f (44 :: (renderObjItems k2 v2 t2 ++ rest)) hfv
      (notDigit_cons 44 (by omega))
    have hrec := parseObjItems_render k2 v2 t2 f rest hft
    rw [show renderObjItems k v (JsonObj.cons k2 v2 t2) =
      34 :: (renderStringBody k ++ (34 :: (58 :: (renderJson v ++
        (44 :: renderObjItems k2 v2 t2))))) from by rw [renderObjItems]]
    rw [List.cons_append]
    simp only [List.cons_append, List.append_assoc, List.nil_append]
    rw [parseObjItems]
    simp only [take1_cons, if_true, if_false, and_true, true_and, and_false, false_and,
      hkey (58 :: (renderJson v ++ (44 :: (renderObjItems k2 v2 t2 ++ rest)))),
      skipWs_cons_not 58 _ (by decide), hv1,
      skipWs_cons_not 44 _ (by decide), hskId, hrec, Option.map_some']
termination_by k v t _ _ _ => sizeOf v + sizeOf t
decreasing_by all_goals (simp <;> omega)
end

/-- JSON.parse inverts JSON.stringify on every JSON value. -/
theorem parseJsonTop_render (v : Json) : parseJsonTop (renderJson v) = some v := by
  rw [parseJsonTop]
  have hlen : fuelV v ≤ (renderJson v).length + 1 := by
    have := fuelV_le_length v
    omega
  have := parseValue_render v ((renderJson v).length + 1) [] hlen notDigit_nil
  rw [List.append_nil] at this
  rw [this]
  rfl

/-! ## The Conlang data model

From the application source (the `types` module itself is not under src/,
but the record shape is fully determined by its construction and use in
App.tsx and geminiService.ts, and by the spec's data-model section):
GrammarRules has four free-text fields, VocabularyWord four string fields,
and Conlang carries identity, phoneme symbols, grammar, vocabulary and a
creation timestamp. -/

structure GrammarRules where
  wordOrder : Str
  pluralRule : Str
  tenseRule : Str
  adjectivePlacement : Str
deriving DecidableEq

structure VocabularyWord where
  id : Str
  native : Str
  meaning : Str
  pronunciation : Str
deriving DecidableEq

structure Conlang where
  id : Str
  name : Str
  description : Str
  phonemes : List Str
  vibe : Str
  grammar : GrammarRules
  vocabulary : List VocabularyWord
  createdAt : Nat
deriving DecidableEq

/-! JSON object keys as code-point lists (checked against their string
spellings below). -/

def idKey : Str := [105, 100]
def nameKey : Str := [110, 97, 109, 101]
def descriptionKey : Str := [100, 101, 115, 99, 114, 105, 112, 116, 105, 111, 110]
def phonemesKey : Str := [112, 104, 111, 110, 101, 109, 101, 115]
def vibeKey : Str := [118, 105, 98, 101]
def grammarKey : Str := [103, 114, 97, 109, 109, 97, 114]
def vocabularyKey : Str := [118, 111, 99, 97, 98, 117, 108, 97, 114, 121]
def createdAtKey : Str := [99, 114, 101, 97, 116, 101, 100, 65, 116]
def wordOrderKey : Str := [119, 111, 114, 100, 79, 114, 100, 101, 114]
def pluralRuleKey : Str := [112, 108, 117, 114, 97, 108, 82, 117, 108, 101]
def tenseRuleKey : Str := [116, 101, 110, 115, 101, 82, 117, 108, 101]
def adjectivePlacementKey : Str :=
  [97, 100, 106, 101, 99, 116, 105, 118, 101, 80, 108, 97, 99, 101, 109, 101, 110, 116]
def nativeKey : Str := [110, 97, 116, 105, 118, 101]
def meaningKey : Str := [109, 101, 97, 110, 105, 110, 103]
def pronunciationKey : Str :=
  [112, 114, 111, 110, 117, 110, 99, 105, 97, 116, 105, 111, 110]

theorem idKey_spelling : idKey = strOf "id" := by decide
theorem nameKey_spelling : nameKey = strOf "name" := by decide
theorem descriptionKey_spelling : descriptionKey = strOf "description" := by decide
theorem phonemesKey_spelling : phonemesKey = strOf "phonemes" := by decide
theorem vibeKey_spelling : vibeKey = strOf "vibe" := by decide
theorem grammarKey_spelling : grammarKey = strOf "grammar" := by decide
theorem vocabularyKey_spelling : vocabularyKey = strOf "vocabulary" := by decide
theorem createdAtKey_spelling : createdAtKey = strOf "createdAt" := by decide
theorem wordOrderKey_spelling : wordOrderKey = strOf "wordOrder" := by decide
theorem pluralRuleKey_spelling : pluralRuleKey = strOf "pluralRule" := by decide
theorem tenseRuleKey_spelling : tenseRuleKey = strOf "tenseRule" := by decide
theorem adjectivePlacementKey_spelling :
    adjectivePlacementKey = strOf "adjectivePlacement" := by decide
theorem nativeKey_spelling : nativeKey = strOf "native" := by decide
theorem meaningKey_spelling : meaningKey = strOf "meaning" := by decide
theorem pronunciationKey_spelling : pronunciationKey = strOf "pronunciation" := by decide

def jarrOfList : List Json → JsonArr
  | [] => JsonArr.nil
  | v :: vs => JsonArr.cons v (jarrOfList vs)

/-- The JSON value JSON.stringify sees for a GrammarRules record. -/
def grammarToJson (g : GrammarRules) : Json :=
  Json.obj (JsonObj.cons wordOrderKey (Json.str g.wordOrder)
    (JsonObj.cons pluralRuleKey (Json.str g.pluralRule)
      (JsonObj.cons tenseRuleKey (Json.str g.tenseRule)
        (JsonObj.cons adjectivePlacementKey (Json.str g.adjectivePlacement)
          JsonObj.nil))))

/-- The JSON value JSON.stringify sees for a VocabularyWord record. -/
def wordToJson (w : VocabularyWord) : Json :=
  Json.obj (JsonObj.cons idKey (Json.str w.id)
    (JsonObj.cons nativeKey (Json.str w.native)
      (JsonObj.cons meaningKey (Json.str w.meaning)
        (JsonObj.cons pronunciationKey (Json.str w.pronunciation)
          JsonObj.nil))))

/-- The JSON value JSON.stringify sees for a full Conlang record.  (The JS
object property order varies with the record's edit history; JSON.parse and
the field reads the app performs are order-insensitive, so one fixed order
is used.) -/
def conlangToJson (r : Conlang) : Json :=
  Json.obj (JsonObj.cons idKey (Json.str r.id)
    (JsonObj.cons nameKey (Json.str r.name)
      (JsonObj.cons descriptionKey (Json.str r.description)
        (JsonObj.cons phonemesKey (Json.arr (jarrOfList (r.phonemes.map Json.str)))
          (JsonObj.cons vibeKey (Json.str r.vibe)
            (JsonObj.cons grammarKey (grammarToJson r.grammar)
              (JsonObj.cons vocabularyKey
                (Json.arr (jarrOfList (r.vocabulary.map wordToJson)))
                (JsonObj.cons createdAtKey (Json.num r.createdAt) JsonObj.nil))))))))

/-- JS property access on a parsed JSON object: look a field up by name. -/
def jGet : JsonObj → Str → Option Json
  | JsonObj.nil, _ => none
  | JsonObj.cons k v t, key => if k = key then some v else jGet t key

def asStr : Json → Option Str
  | Json.str s => some s
  | _ => none

def asNat : Json → Option Nat
  | Json.num n => some n
  | _ => none

def strsOfJsonArr : JsonArr → Option (List Str)
  | JsonArr.nil => some []
  | JsonArr.cons v t =>
    match v with
    | Json.str s => (strsOfJsonArr t).map (fun l => s :: l)
    | _ => none

def asStrList : Json → Option (List Str)
  | Json.arr a => strsOfJsonArr a
  | _ => none

/-- The field reads the app performs on a parsed grammar object. -/
def grammarOfJson (j : Json) : Option GrammarRules :=
  match j with
  | Json.obj m => do
    let wo ← (jGet m wordOrderKey).bind asStr
    let pl ← (jGet m pluralRuleKey).bind asStr
    let te ← (jGet m tenseRuleKey).bind asStr
    let ad ← (jGet m adjectivePlacementKey).bind asStr
    pure ⟨wo, pl, te, ad⟩
  | _ => none

/-- The field reads the app performs on a parsed vocabulary entry. -/
def wordOfJson (j : Json) : Option VocabularyWord :=
  match j with
  | Json.obj m => do
    let i ← (jGet m idKey).bind asStr
    let na ← (jGet m nativeKey).bind asStr
    let me2 ← (jGet m meaningKey).bind asStr
    let pr ← (jGet m pronunciationKey).bind asStr
    pure ⟨i, na, me2, pr⟩
  | _ => none

def wordsOfJsonArr : JsonArr → Option (List VocabularyWord)
  | JsonArr.nil => some []
  | JsonArr.cons v t => do
    let w ← wordOfJson v
    let ws ← wordsOfJsonArr t
    pure (w :: ws)

def asWordList : Json → Option (List VocabularyWord)
  | Json.arr a => wordsOfJsonArr a
  | _ => none

/-- The field reads the editor performs on a record decoded from a share
token or imported file. -/
def conlangOfJson (j : Json) : Option Conlang :=
  match j with
  | Json.obj m => do
    let i ← (jGet m idKey).bind asStr
    let na ← (jGet m nameKey).bind asStr
    let de ← (jGet m descriptionKey).bind asStr
    let ph ← (jGet m phonemesKey).bind asStrList
    let vi ← (jGet m vibeKey).bind asStr
    let gr ← (jGet m grammarKey).bind grammarOfJson
    let vo ← (jGet m vocabularyKey).bind asWordList
    let ca ← (jGet m createdAtKey).bind asNat
    pure ⟨i, na, de, ph, vi, gr, vo, ca⟩
  | _ => none

theorem strsOfJsonArr_map (l : List Str) :
    strsOfJsonArr (jarrOfList (l.map Json.str)) = some l := by
  induction l with
  | nil => rfl
  | cons s t ih => simp [jarrOfList, strsOfJsonArr, ih]

theorem wordOfJson_toJson (w : VocabularyWord) : wordOfJson (wordToJson w) = some w := by
  simp [wordOfJson, wordToJson, jGet, asStr, idKey, nativeKey, meaningKey,
    pronunciationKey]

theorem wordsOfJsonArr_map (l : List VocabularyWord) :
    wordsOfJsonArr (jarrOfList (l.map wordToJson)) = some l := by
  induction l with
  | nil => rfl
  | cons w t ih => simp [jarrOfList, wordsOfJsonArr, wordOfJson_toJson, ih]

theorem grammarOfJson_toJson (g : GrammarRules) :
    grammarOfJson (grammarToJson g) = some g := by
  simp [grammarOfJson, grammarToJson, jGet, asStr, wordOrderKey, pluralRuleKey,
    tenseRuleKey, adjectivePlacementKey]

/-- The record codec round-trips: reading the fields of the serialized JSON
value of a Conlang gives back the record. -/
theorem conlangOfJson_toJson (r : Conlang) : conlangOfJson (conlangToJson r) = some r := by
  simp [conlangOfJson, conlangToJson, jGet, asStr, asNat, asStrList, asWordList,
    strsOfJsonArr_map, wordsOfJsonArr_map, grammarOfJson_toJson,
    idKey, nameKey, descriptionKey, phonemesKey, vibeKey, grammarKey,
    vocabularyKey, createdAtKey]

/-! ## Validity: records whose strings are made of Unicode scalar values -/

mutual
def validJ : Json → Prop
  | .str s => validStr s
  | .num _ => True
  | .bool _ => True
  | .null => True
  | .arr a => validJA a
  | .obj o => validJO o

def validJA : JsonArr → Prop
  | .nil => True
  | .cons v t => validJ v ∧ validJA t

def validJO : JsonObj → Prop
  | .nil => True
  | .cons k v t => validStr k ∧ validJ v ∧ validJO t
end

/-- A valid Conlang record: every string field consists of Unicode scalar
values (which is every string a browser JS engine can hand to the
well-formed serializer). -/
def validConlang (r : Conlang) : Prop :=
  validStr r.id ∧ validStr r.name ∧ validStr r.description ∧
  (∀ p ∈ r.phonemes, validStr p) ∧ validStr r.vibe ∧
  validStr r.grammar.wordOrder ∧ validStr r.grammar.pluralRule ∧
  validStr r.grammar.tenseRule ∧ validStr r.grammar.adjectivePlacement ∧
  (∀ w ∈ r.vocabulary,
    validStr w.id ∧ validStr w.native ∧ validStr w.meaning ∧ validStr w.pronunciation)

instance : DecidablePred validConlang := fun r => by unfold validConlang; infer_instance

theorem validStr_nil : validStr [] := by intro c hc; cases hc

theorem validStr_cons (c : Nat) (t : Str) (hc : scalar c) (ht : validStr t) :
    validStr (c :: t) := by
  intro x hx
  rcases List.mem_cons.mp hx with rfl | hx
  · exact hc
  · exact ht x hx

theorem validStr_append (a b : Str) (ha : validStr a) (hb : validStr b) :
    validStr (a ++ b) := by
  intro x hx
  rcases List.mem_append.mp hx with hx | hx
  · exact ha x hx
  · exact hb x hx

theorem scalar_of_small (c : Nat) (h : c < 55296) : scalar c := by
  unfold scalar
  omega

theorem validStr_renderStringBody (s : Str) (h : validStr s) :
    validStr (renderStringBody s) := by
  induction s with
  | nil => exact validStr_nil
  | cons c cs ih =>
    have hc := h c (by simp)
    have ih2 := ih (fun x hx => h x (by simp [hx]))
    rw [renderStringBody]
    refine validStr_append _ _ ?_ ih2
    split_ifs with e1 e2 e3 e4 e5 e6 e7 e8
    · intro x hx; simp at hx; rcases hx with rfl | rfl <;> exact scalar_of_small _ (by omega)
    · intro x hx; simp at hx; rcases hx with rfl | rfl <;> exact scalar_of_small _ (by omega)
    · intro x hx; simp at hx; rcases hx with rfl | rfl <;> exact scalar_of_small _ (by omega)
    · intro x hx; simp at hx; rcases hx with rfl | rfl <;> exact scalar_of_small _ (by omega)
    · intro x hx; simp at hx; rcases hx with rfl | rfl <;> exact scalar_of_small _ (by omega)
    · intro x hx; simp at hx; rcases hx with rfl | rfl <;> exact scalar_of_small _ (by omega)
    · intro x hx; simp at hx; rcases hx with rfl | rfl <;> exact scalar_of_small _ (by omega)
    · intro x hx
      simp [hexLower] at hx
      rcases hx with rfl | rfl | rfl | rfl | hx
      · exact scalar_of_small _ (by omega)
      · exact scalar_of_small _ (by omega)
      · exact scalar_of_small _ (by omega)
      · exact scalar_of_small _ (by split_ifs <;> omega)
      · subst hx; exact scalar_of_small _ (by split_ifs <;> omega)
    · intro x hx; simp at hx; subst hx; exact hc

theorem validStr_natDigits (n : Nat) : validStr (natDigits n) := by
  intro c hc
  have := natDigits_digits n c hc
  exact scalar_of_small c (by omega)

mutual
theorem validStr_renderJson : ∀ v : Json, validJ v → validStr (renderJson v)
  | .str s, h => by
    rw [show renderJson (Json.str s) = 34 :: (renderStringBody s ++ [34]) from by
      rw [renderJson]]
    refine validStr_cons _ _ (scalar_of_small _ (by omega)) ?_
    exact validStr_append _ _ (validStr_renderStringBody s h)
      (validStr_cons _ _ (scalar_of_small _ (by omega)) validStr_nil)
  | .num n, _ => by
    rw [show renderJson (Json.num n) = natDigits n from by rw [renderJson]]
    exact validStr_natDigits n
  | .bool b, _ => by
    cases b <;>
      (first
        | (rw [show renderJson (Json.bool false) = [102, 97, 108, 115, 101] from by
            rw [renderJson]; rfl]; decide)
        | (rw [show renderJson (Json.bool true) = [116, 114, 117, 101] from by
            rw [renderJson]; rfl]; decide))
  | .null, _ => by
    rw [show renderJson Json.null = [110, 117, 108, 108] from by rw [renderJson]]
    decide
  | .arr .nil, _ => by
    rw [show renderJson (Json.arr JsonArr.nil) = [91, 93] from by rw [renderJson]]
    decide
  | .arr (.cons v t), h => by
    rw [show renderJson (Json.arr (JsonArr.cons v t)) = 91 :: renderArrItems v t from by
      rw [renderJson]]
    have h2 : validJA (JsonArr.cons v t) := h
    rw [validJA] at h2
    exact validStr_cons _ _ (scalar_of_small _ (by omega))
      (validStr_renderArrItems v t h2.1 h2.2)
  | .obj .nil, _ => by
    rw [show renderJson (Json.obj JsonObj.nil) = [123, 125] from by rw [renderJson]]
    decide
  | .obj (.cons k v t), h => by
    rw [show renderJson (Json.obj (JsonObj.cons k v t)) = 123 :: renderObjItems k v t
      from by rw [renderJson]]
    have h2 : validJO (JsonObj.cons k v t) := h
    rw [validJO] at h2
    exact validStr_cons _ _ (scalar_of_small _ (by omega))
      (validStr_renderObjItems k v t h2.1 h2.2.1 h2.2.2)
termination_by v => sizeOf v
decreasing_by all_goals (simp <;> omega)

theorem validStr_renderArrItems : ∀ (v : Json) (t : JsonArr),
    validJ v → validJA t → validStr (renderArrItems v t)
  | v, .nil, hv, _ => by
    rw [show renderArrItems v JsonArr.nil = renderJson v ++ [93] from by
      rw [renderArrItems]]
    exact validStr_append _ _ (validStr_renderJson v hv) (by decide)
  | v, .cons w t2, hv, ht => by
    rw [show renderArrItems v (JsonArr.cons w t2) =
      renderJson v ++ (44 :: renderArrItems w t2) from by rw [renderArrItems]]
    rw [validJA] at ht
    exact validStr_append _ _ (validStr_renderJson v hv)
      (validStr_cons _ _ (scalar_of_small _ (by omega))
        (validStr_renderArrItems w t2 ht.1 ht.2))
termination_by v t => sizeOf v + sizeOf t
decreasing_by all_goals (simp <;> omega)

theorem validStr_renderObjItems : ∀ (k : Str) (v : Json) (t : JsonObj),
    validStr k → validJ v → validJO t → validStr (renderObjItems k v t)
  | k, v, .nil, hk, hv, _ => by
    rw [show renderObjItems k v JsonObj.nil =
      34 :: (renderStringBody k ++ (34 :: (58 :: (renderJson v ++ [125])))) from by
      rw [renderObjItems]]
    refine validStr_cons _ _ (scalar_of_small _ (by omega)) ?_
    refine validStr_append _ _ (validStr_renderStringBody k hk) ?_
    refine validStr_cons _ _ (scalar_of_small _ (by omega)) ?_
    refine validStr_cons _ _ (scalar_of_small _ (by omega)) ?_
    exact validStr_append _ _ (validStr_renderJson v hv) (by decide)
  | k, v, .cons k2 v2 t2, hk, hv, ht => by
    rw [show renderObjItems k v (JsonObj.cons k2 v2 t2) =
      34 :: (renderStringBody k ++ (34 :: (58 :: (renderJson v ++
        (44 :: renderObjItems k2 v2 t2))))) from by rw [renderObjItems]]
    rw [validJO] at ht
    refine validStr_cons _ _ (scalar_of_small _ (by omega)) ?_
    refine validStr_append _ _ (validStr_renderStringBody k hk) ?_
    refine validStr_cons _ _ (scalar_of_small _ (by omega)) ?_
    refine validStr_cons _ _ (scalar_of_small _ (by omega)) ?_
    refine validStr_append _ _ (validStr_renderJson v hv) ?_
    exact validStr_cons _ _ (scalar_of_small _ (by omega))
      (validStr_renderObjItems k2 v2 t2 ht.1 ht.2.1 ht.2.2)
termination_by k v t => sizeOf v + sizeOf t
decreasing_by all_goals (simp <;> omega)
end

theorem validJA_strs (l : List Str) (h : ∀ p ∈ l, validStr p) :
    validJA (jarrOfList (l.map Json.str)) := by
  induction l with
  | nil => rw [List.map_nil, jarrOfList]; trivial
  | cons s t ih =>
    rw [List.map_cons, jarrOfList, validJA]
    exact ⟨h s (by simp), ih (fun x hx => h x (by simp [hx]))⟩

theorem validJ_wordToJson (w : VocabularyWord)
    (h : validStr w.id ∧ validStr w.native ∧ validStr w.meaning ∧
      validStr w.pronunciation) : validJ (wordToJson w) := by
  rw [wordToJson]
  show validJO _
  rw [validJO]
  refine ⟨by decide, h.1, ?_⟩
  rw [validJO]
  refine ⟨by decide, h.2.1, ?_⟩
  rw [validJO]
  refine ⟨by decide, h.2.2.1, ?_⟩
  rw [validJO]
  exact ⟨by decide, h.2.2.2, trivial⟩

theorem validJA_words (l : List VocabularyWord)
    (h : ∀ w ∈ l, validStr w.id ∧ validStr w.native ∧ validStr w.meaning ∧
      validStr w.pronunciation) :
    validJA (jarrOfList (l.map wordToJson)) := by
  induction l with
  | nil => rw [List.map_nil, jarrOfList]; trivial
  | cons w t ih =>
    rw [List.map_cons, jarrOfList, validJA]
    exact ⟨validJ_wordToJson w (h w (by simp)), ih (fun x hx => h x (by simp [hx]))⟩

/-- The serialized form of a valid Conlang record is a valid JSON value. -/
theorem validJ_conlangToJson (r : Conlang) (h : validConlang r) :
    validJ (conlangToJson r) := by
  obtain ⟨h1, h2, h3, h4, h5, h6, h7, h8, h9, h10⟩ := h
  rw [conlangToJson]
  show validJO _
  rw [validJO]
  refine ⟨by decide, h1, ?_⟩
  rw [validJO]
  refine ⟨by decide, h2, ?_⟩
  rw [validJO]
  refine ⟨by decide, h3, ?_⟩
  rw [validJO]
  refine ⟨by decide, validJA_strs _ h4, ?_⟩
  rw [validJO]
  refine ⟨by decide, h5, ?_⟩
  rw [validJO]
  refine ⟨by decide, ?_, ?_⟩
  · rw [grammarToJson]
    show validJO _
    rw [validJO]
    refine ⟨by decide, h6, ?_⟩
    rw [validJO]
    refine ⟨by decide, h7, ?_⟩
    rw [validJO]
    refine ⟨by decide, h8, ?_⟩
    rw [validJO]
    exact ⟨by decide, h9, trivial⟩
  rw [validJO]
  refine ⟨by decide, validJA_words _ h10, ?_⟩
  rw [validJO]
  exact ⟨by decide, trivial, trivial⟩

/-! ## Claim C1: the share-token round trip -/

/-- handleShare (App.tsx, the revision that carries the unicode-safe fix the
claim cites for decoding): the share token placed in the URL is
btoa(unescape(encodeURIComponent(JSON.stringify(currentLang)))).  The URL
text around the token plays no role in decoding and is omitted. -/
def handleShare (r : Conlang) : List Nat :=
  btoa (unescape (encodeURIComponent (renderJson (conlangToJson r))))

/-- The share-link decode in the load effect:
JSON.parse(decodeURIComponent(escape(atob(sharedData)))).  The parsed object
is installed as currentLang; conlangOfJson models the field reads the editor
then performs on it. -/
def decodeShare (tok : List Nat) : Option Conlang :=
  (atob tok).bind (fun s =>
    (decodeURIComponent (escape s)).bind (fun chars =>
      (parseJsonTop chars).bind conlangOfJson))

/-- C1: for every valid Conlang record, decoding the share token produced by
handleShare with the load-time decoder yields a record field-for-field equal
to the original, including records whose strings contain non-ASCII
characters such as IPA symbols. -/
theorem C1_share_roundtrip (r : Conlang) (h : validConlang r) :
    decodeShare (handleShare r) = some r := by
  have hJ : validStr (renderJson (conlangToJson r)) :=
    validStr_renderJson _ (validJ_conlangToJson r h)
  have hbytes : ∀ b ∈ utf8Encode (renderJson (conlangToJson r)), b < 256 :=
    utf8Encode_bytes_lt _ hJ
  rw [decodeShare, handleShare]
  rw [unescape_encodeURIComponent _ hJ]
  rw [atob_btoa _ hbytes]
  simp only [Option.some_bind]
  rw [decodeURIComponent_escape _ hbytes]
  rw [utf8Decode_encode _ hJ]
  simp only [Option.some_bind]
  rw [parseJsonTop_render]
  simp only [Option.some_bind]
  rw [conlangOfJson_toJson]

/-- A concrete record exercising non-ASCII content: the phoneme ʘ (U+0298)
and the native form ˈpʰa.tu from the spec scenario. -/
def shareExample : Conlang :=
  { id := strOf "abc123xyz"
  , name := strOf "Test"
  , description := strOf "A test language"
  , phonemes := [strOf "p", strOf "a", strOf "t", [664]]
  , vibe := strOf "mystic"
  , grammar :=
    { wordOrder := strOf "SVO"
    , pluralRule := strOf "Suffix -s"
    , tenseRule := strOf "Prefix re-"
    , adjectivePlacement := strOf "Before noun" }
  , vocabulary :=
    [ { id := strOf "w1"
      , native := [712, 112, 688, 97, 46, 116, 117]
      , meaning := strOf "water"
      , pronunciation := [712, 112, 688, 97, 46, 116, 117] } ]
  , createdAt := 1700000000000 }

/-- Witness for C1 at a concrete unicode-bearing record. -/
theorem C1_share_roundtrip_witness :
    validConlang shareExample ∧ decodeShare (handleShare shareExample) = some shareExample :=
  ⟨by decide, C1_share_roundtrip shareExample (by decide)⟩

/-! ## The application view controller (App.tsx, second revision)

The controller holds currentLang : Partial Conlang.  The always-initialized
fields are carried directly; id and createdAt are genuinely optional (absent
until the first save).  A JS undefined string field and the empty string
behave identically in every truthiness test the controller performs, so both
are modelled as the empty string. -/

inductive AppState where
  | HOME
  | EDITOR
  | SAVED
deriving DecidableEq

structure CtrlLang where
  id : Option Str
  name : Str
  description : Str
  phonemes : List Str
  vibe : Str
  grammar : GrammarRules
  vocabulary : List VocabularyWord
  createdAt : Option Nat
deriving DecidableEq

/-- JS truthiness of a possibly-absent string: defined and non-empty. -/
def jsTruthyStr : Option Str → Bool
  | none => false
  | some s => decide (¬ (s = []))

/-- JS `a || b` on strings: b when a is empty. -/
def jsOrStr (a b : Str) : Str := if a = [] then b else a

/-- JS `a || b` where a is a possibly-absent string. -/
def jsOrOptStr (a : Option Str) (b : Str) : Str :=
  match a with
  | none => b
  | some s => if s = [] then b else s

/-- JS `a || b` where a is a possibly-absent number (0 is falsy). -/
def jsOrOptNat (a : Option Nat) (b : Nat) : Nat :=
  match a with
  | none => b
  | some n => if n = 0 then b else n

/-! Literal strings of the second-revision controller and service. -/

def msgNameRequired : Str := strOf "Please provide a name for your language first."
def msgPhonemesRequired : Str :=
  strOf "Please select at least one IPA symbol to build your phonology."
def defaultVibe : Str := strOf "A unique constructed language"
def msgEngineError : Str := strOf "Linguistic engine error."
def msgEngineFailure : Str := strOf "Linguistic engine failure."
def msgExtendFailed : Str := strOf "Failed to generate new words."
def msgExtendServiceFailed : Str := strOf "Failed to extend vocabulary."
def msgInvalidShare : Str := strOf "Invalid share link data"
def msgCorruptedStorage : Str := strOf "Corrupted local storage"

/-- Stand-in for the engine-specific message of the SyntaxError JSON.parse
throws on malformed text; only its presence matters to the controller. -/
def msgJsonSyntax : Str := strOf "Unexpected token in JSON"

/-- What the awaited external model call does, as observed by the service
functions: either the await throws (network, auth or rate-limit failure,
carrying a message) or it yields the response text.  An empty or absent
response body is the text case with unparseable content. -/
inductive GenResponse where
  | netError (msg : Str)
  | text (t : List Nat)

/-- Whitespace trimmed by the JS String.trim used on response texts
(restricted to the ASCII whitespace characters, the only ones arising
here). -/
def jsTrimWs (c : Nat) : Bool := decide (c = 32) || (decide (9 ≤ c) && decide (c ≤ 13))

def trimStart : List Nat → List Nat
  | [] => []
  | c :: t => if jsTrimWs c then trimStart t else c :: t

/-- The String.trim builtin. -/
def jsTrim (l : List Nat) : List Nat :=
  (trimStart (trimStart l).reverse).reverse

/-- geminiService.generateLanguageCore: awaits the model response and
returns JSON.parse(response.text.trim()); any throw is rethrown as an Error
with the original message or the fallback "Linguistic engine failure.".
(The service declares a response schema but does not validate the parsed
value against it; the ok branch therefore carries the raw JSON value.) -/
def generateLanguageCore (resp : GenResponse) : Except Str Json :=
  match resp with
  | .netError m => .error (jsOrStr m msgEngineFailure)
  | .text t =>
    match parseJsonTop (jsTrim t) with
    | some j => .ok j
    | none => .error (jsOrStr msgJsonSyntax msgEngineFailure)

/-- The typed shape the controller reads off a successful core-generation
result: result.description, result.grammar, result.vocabulary. -/
structure CoreResult where
  description : Str
  grammar : GrammarRules
  vocabulary : List VocabularyWord
deriving DecidableEq

def coreResultOfJson (j : Json) : Option CoreResult :=
  match j with
  | Json.obj m => do
    let de ← (jGet m descriptionKey).bind asStr
    let gr ← (jGet m grammarKey).bind grammarOfJson
    let vo ← (jGet m vocabularyKey).bind asWordList
    pure ⟨de, gr, vo⟩
  | _ => none

/-- The merge step of handleGenerate:
setCurrentLang(prev => (...prev, description, grammar, vocabulary)).  When
the parsed result lacks the declared shape the JS fields read undefined,
modelled as the empty values. -/
def mergeCore (cur : CtrlLang) (j : Json) : CtrlLang :=
  match coreResultOfJson j with
  | some res =>
    { cur with
      description := res.description
      grammar := res.grammar
      vocabulary := res.vocabulary }
  | none =>
    { cur with
      description := []
      grammar := ⟨[], [], [], []⟩
      vocabulary := [] }

/-- The outcome of one handleGenerate invocation: the resulting currentLang,
the error state it sets (none means it cleared it), whether
generateLanguageCore was invoked, and with which arguments. -/
structure GenOutcome where
  lang : CtrlLang
  error : Option Str
  calledCore : Bool
  callArgs : Option (Str × Str × List Str)
deriving DecidableEq

/-- handleGenerate (second revision): two validation checks with their
inline messages, then the external call with the vibe defaulted when empty,
the merge on success, and setError(err.message || fallback) on failure. -/
def handleGenerate (cur : CtrlLang) (resp : GenResponse) : GenOutcome :=
  if cur.name = [] then
    { lang := cur, error := some msgNameRequired, calledCore := false, callArgs := none }
  else if cur.phonemes = [] then
    { lang := cur, error := some msgPhonemesRequired, calledCore := false, callArgs := none }
  else
    let vibeArg := jsOrStr cur.vibe defaultVibe
    match generateLanguageCore resp with
    | .ok j =>
      { lang := mergeCore cur j, error := none, calledCore := true,
        callArgs := some (cur.name, vibeArg, cur.phonemes) }
    | .error m =>
      { lang := cur, error := some (jsOrStr m msgEngineError), calledCore := true,
        callArgs := some (cur.name, vibeArg, cur.phonemes) }

/-- geminiService.extendVocabulary: parse the response text as the declared
word-list shape; any throw becomes Error("Failed to extend vocabulary."). -/
def extendVocabulary (resp : GenResponse) : Except Str (List VocabularyWord) :=
  match resp with
  | .netError _ => .error msgExtendServiceFailed
  | .text t =>
    match (parseJsonTop (jsTrim t)).bind asWordList with
    | some ws => .ok ws
    | none => .error msgExtendServiceFailed

/-- handleExtendVocabulary: append the returned words verbatim to the
current vocabulary; on failure set the error state.  (The isExtending
re-entry guard serializes invocations and is not part of a single call's
data flow.) -/
def handleExtendVocabulary (cur : CtrlLang) (resp : GenResponse) : CtrlLang × Option Str :=
  match extendVocabulary resp with
  | .ok newWords => ({ cur with vocabulary := cur.vocabulary ++ newWords }, none)
  | .error _ => (cur, some msgExtendFailed)

/-- No two vocabulary entries share an id. -/
def uniqueIds (l : List VocabularyWord) : Prop := (l.map VocabularyWord.id).Nodup

instance : DecidablePred uniqueIds := fun l => by unfold uniqueIds; infer_instance

/-- handleSaveLang: resolve id and createdAt with JS `||` against a fresh
random id and Date.now() (both passed in as parameters since they are
nondeterministic), then either replace by id (when currentLang.id is truthy)
or prepend.  Returns the updated collection and the record written. -/
def handleSaveLang (now : Nat) (freshId : Str) (cur : CtrlLang)
    (savedLangs : List Conlang) : List Conlang × Conlang :=
  let newLang : Conlang :=
    { id := jsOrOptStr cur.id freshId
    , name := cur.name
    , description := cur.description
    , phonemes := cur.phonemes
    , vibe := cur.vibe
    , grammar := cur.grammar
    , vocabulary := cur.vocabulary
    , createdAt := jsOrOptNat cur.createdAt now }
  let updated :=
    if jsTruthyStr cur.id then
      savedLangs.map (fun l => if l.id = newLang.id then newLang else l)
    else
      newLang :: savedLangs
  (updated, newLang)

/-- The currentLang buffer obtained by opening a saved record in the editor
(setCurrentLang(lang)). -/
def ctrlOfConlang (r : Conlang) : CtrlLang :=
  { id := some r.id
  , name := r.name
  , description := r.description
  , phonemes := r.phonemes
  , vibe := r.vibe
  , grammar := r.grammar
  , vocabulary := r.vocabulary
  , createdAt := some r.createdAt }

/-- handleDelete: remove every record whose id strictly equals the given
one. -/
def handleDelete (id : Str) (savedLangs : List Conlang) : List Conlang :=
  savedLangs.filter (fun l => decide (¬ (l.id = id)))

/-- The raw share decode inside the load effect's try block:
JSON.parse(decodeURIComponent(escape(atob(sharedData)))); none models the
thrown exception on a malformed or truncated token. -/
def decodeShareJson (tok : List Nat) : Option Json :=
  (atob tok).bind (fun s => (decodeURIComponent (escape s)).bind parseJsonTop)

/-- The state the initial load effect leaves behind: the parsed stored
collection (none = left at the initial empty list), the record decoded from
a share link (none = the initial empty editor buffer), the app state, the
user-visible error state, and the console log. -/
structure LoadState where
  savedLangs : Option Json
  currentLang : Option Json
  appState : AppState
  error : Option Str
  consoleErrors : List Str
deriving DecidableEq

/-- The initial-load effect (second revision): read local storage inside a
try/catch that only logs "Corrupted local storage", then decode a share
parameter inside a try/catch that only logs "Invalid share link data"; a
successful share decode installs the record and jumps to the editor.  The
error field models the setError state, which this effect never touches. -/
def appLoad (storage : Option (List Nat)) (shareParam : Option (List Nat)) : LoadState :=
  let s1 : LoadState :=
    { savedLangs := none, currentLang := none, appState := AppState.HOME
    , error := none, consoleErrors := [] }
  let s2 :=
    match storage with
    | none => s1
    | some txt =>
      match parseJsonTop txt with
      | some j => { s1 with savedLangs := some j }
      | none => { s1 with consoleErrors := s1.consoleErrors ++ [msgCorruptedStorage] }
  match shareParam with
  | none => s2
  | some tok =>
    match decodeShareJson tok with
    | some j => { s2 with currentLang := some j, appState := AppState.EDITOR }
    | none => { s2 with consoleErrors := s2.consoleErrors ++ [msgInvalidShare] }

/-! ## Claims about handleGenerate (C3, C4, C7, C10) -/

theorem mergeCore_frame (cur : CtrlLang) (j : Json) :
    (mergeCore cur j).name = cur.name ∧ (mergeCore cur j).phonemes = cur.phonemes ∧
    (mergeCore cur j).vibe = cur.vibe ∧ (mergeCore cur j).id = cur.id ∧
    (mergeCore cur j).createdAt = cur.createdAt := by
  unfold mergeCore
  cases coreResultOfJson j <;> simp

/-- C3: handleGenerate calls generateLanguageCore exactly when the name and
phoneme selection are both non-empty; otherwise it sets an inline error
message and makes no external call. -/
theorem C3_generate_validation (cur : CtrlLang) (resp : GenResponse) :
    ((cur.name = [] ∨ cur.phonemes = []) →
      (handleGenerate cur resp).calledCore = false ∧
      (handleGenerate cur resp).error.isSome = true) ∧
    (¬ (cur.name = [] ∨ cur.phonemes = []) →
      (handleGenerate cur resp).calledCore = true) := by
  constructor
  · intro h
    by_cases hn : cur.name = []
    · simp [handleGenerate, hn]
    · have hp : cur.phonemes = [] := by tauto
      simp [handleGenerate, hn, hp]
  · intro h
    push_neg at h
    obtain ⟨h1, h2⟩ := h
    simp only [handleGenerate, if_neg h1, if_neg h2]
    cases generateLanguageCore resp <;> simp

/-- A controller state with an empty name. -/
def curEmptyName : CtrlLang :=
  { id := none, name := [], description := [], phonemes := [strOf "p"], vibe := []
  , grammar := ⟨[], [], [], []⟩, vocabulary := [], createdAt := none }

/-- A controller state passing validation, with an empty vibe. -/
def curReady : CtrlLang :=
  { id := none, name := strOf "Test", description := []
  , phonemes := [strOf "p", strOf "a", strOf "t"], vibe := []
  , grammar := ⟨[], [], [], []⟩, vocabulary := [], createdAt := none }

/-- Witness for C3 at a concrete state with an empty name. -/
theorem C3_generate_validation_witness :
    (handleGenerate curEmptyName (GenResponse.netError [])).calledCore = false ∧
    (handleGenerate curEmptyName (GenResponse.netError [])).error.isSome = true :=
  (C3_generate_validation curEmptyName (GenResponse.netError [])).1 (Or.inl (by decide))

/-- C4: whenever the core-generation call fails (network error, empty
response, or response text that is not valid JSON all surface as an Except
error from generateLanguageCore), handleGenerate sets an error message and
leaves the current record unchanged. -/
theorem C4_generate_error_atomic (cur : CtrlLang) (resp : GenResponse) (m : Str)
    (h : generateLanguageCore resp = Except.error m) :
    (handleGenerate cur resp).lang = cur ∧
    (handleGenerate cur resp).error.isSome = true := by
  by_cases h1 : cur.name = []
  · simp [handleGenerate, h1]
  · by_cases h2 : cur.phonemes = []
    · simp [handleGenerate, h1, h2]
    · simp [handleGenerate, h1, h2, h]

/-- Witness for C4: a response whose text is not JSON. -/
theorem C4_generate_error_atomic_witness :
    (handleGenerate curReady (GenResponse.text (strOf "not json"))).lang = curReady ∧
    (handleGenerate curReady (GenResponse.text (strOf "not json"))).error.isSome = true :=
  C4_generate_error_atomic curReady (GenResponse.text (strOf "not json")) msgJsonSyntax
    (by rfl)

/-- C7: on a successful core generation the merge updates only description,
grammar and vocabulary; name, phonemes, vibe, id and createdAt are
unchanged. -/
theorem C7_generate_merge_frame (cur : CtrlLang) (resp : GenResponse) (j : Json)
    (h1 : ¬ (cur.name = [])) (h2 : ¬ (cur.phonemes = []))
    (h3 : generateLanguageCore resp = Except.ok j) :
    (handleGenerate cur resp).lang.name = cur.name ∧
    (handleGenerate cur resp).lang.phonemes = cur.phonemes ∧
    (handleGenerate cur resp).lang.vibe = cur.vibe ∧
    (handleGenerate cur resp).lang.id = cur.id ∧
    (handleGenerate cur resp).lang.createdAt = cur.createdAt ∧
    (∀ res, coreResultOfJson j = some res →
      (handleGenerate cur resp).lang.description = res.description ∧
      (handleGenerate cur resp).lang.grammar = res.grammar ∧
      (handleGenerate cur resp).lang.vocabulary = res.vocabulary) := by
  have hl : (handleGenerate cur resp).lang = mergeCore cur j := by
    simp [handleGenerate, if_neg h1, if_neg h2, h3]
  rw [hl]
  obtain ⟨f1, f2, f3, f4, f5⟩ := mergeCore_frame cur j
  refine ⟨f1, f2, f3, f4, f5, ?_⟩
  intro res hres
  simp [mergeCore, hres]

/-- A concrete well-shaped core-generation result. -/
def coreResultExample : CoreResult :=
  { description := strOf "A melodic tongue"
  , grammar := ⟨strOf "SOV", strOf "Reduplication", strOf "Suffix -ta", strOf "After noun"⟩
  , vocabulary := [⟨strOf "w1", strOf "pat", strOf "stone", strOf "pat"⟩] }

/-- The JSON value of that result, as the external call would return it. -/
def coreJsonExample : Json :=
  Json.obj (JsonObj.cons descriptionKey (Json.str coreResultExample.description)
    (JsonObj.cons grammarKey (grammarToJson coreResultExample.grammar)
      (JsonObj.cons vocabularyKey
        (Json.arr (jarrOfList (coreResultExample.vocabulary.map wordToJson)))
        JsonObj.nil)))

/-- The response text of that result, character for character (the compact
JSON document the external call returns). -/
def coreTextExample : List Nat :=
  [123, 34, 100, 101, 115, 99, 114, 105, 112, 116, 105, 111, 110, 34,
   58, 34, 65, 32, 109, 101, 108, 111, 100, 105, 99, 32, 116, 111,
   110, 103, 117, 101, 34, 44, 34, 103, 114, 97, 109, 109, 97, 114,
   34, 58, 123, 34, 119, 111, 114, 100, 79, 114, 100, 101, 114, 34,
   58, 34, 83, 79, 86, 34, 44, 34, 112, 108, 117, 114, 97, 108,
   82, 117, 108, 101, 34, 58, 34, 82, 101, 100, 117, 112, 108, 105,
   99, 97, 116, 105, 111, 110, 34, 44, 34, 116, 101, 110, 115, 101,
   82, 117, 108, 101, 34, 58, 34, 83, 117, 102, 102, 105, 120, 32,
   45, 116, 97, 34, 44, 34, 97, 100, 106, 101, 99, 116, 105, 118,
   101, 80, 108, 97, 99, 101, 109, 101, 110, 116, 34, 58, 34, 65,
   102, 116, 101, 114, 32, 110, 111, 117, 110, 34, 125, 44, 34, 118,
   111, 99, 97, 98, 117, 108, 97, 114, 121, 34, 58, 91, 123, 34,
   105, 100, 34, 58, 34, 119, 49, 34, 44, 34, 110, 97, 116, 105,
   118, 101, 34, 58, 34, 112, 97, 116, 34, 44, 34, 109, 101, 97,
   110, 105, 110, 103, 34, 58, 34, 115, 116, 111, 110, 101, 34, 44,
   34, 112, 114, 111, 110, 117, 110, 99, 105, 97, 116, 105, 111, 110,
   34, 58, 34, 112, 97, 116, 34, 125, 93, 125]

/-- Witness for C7 at a concrete state and successful response. -/
theorem C7_generate_merge_frame_witness :
    (handleGenerate curReady (GenResponse.text coreTextExample)).lang.name =
      curReady.name ∧
    (handleGenerate curReady (GenResponse.text coreTextExample)).lang.phonemes =
      curReady.phonemes ∧
    (handleGenerate curReady (GenResponse.text coreTextExample)).lang.vibe =
      curReady.vibe ∧
    (handleGenerate curReady (GenResponse.text coreTextExample)).lang.id =
      curReady.id ∧
    (handleGenerate curReady (GenResponse.text coreTextExample)).lang.createdAt =
      curReady.createdAt ∧
    (∀ res, coreResultOfJson coreJsonExample = some res →
      (handleGenerate curReady (GenResponse.text coreTextExample)).lang.description =
        res.description ∧
      (handleGenerate curReady (GenResponse.text coreTextExample)).lang.grammar =
        res.grammar ∧
      (handleGenerate curReady (GenResponse.text coreTextExample)).lang.vocabulary =
        res.vocabulary) :=
  C7_generate_merge_frame curReady (GenResponse.text coreTextExample)
    coreJsonExample (by decide) (by decide) (by rfl)

/-- C10: an empty vibe does not block generation; the call is made with the
built-in default vibe text substituted. -/
theorem C10_empty_vibe_default (cur : CtrlLang) (resp : GenResponse)
    (h1 : ¬ (cur.name = [])) (h2 : ¬ (cur.phonemes = [])) (h3 : cur.vibe = []) :
    (handleGenerate cur resp).calledCore = true ∧
    (handleGenerate cur resp).callArgs = some (cur.name, defaultVibe, cur.phonemes) := by
  have hv : jsOrStr cur.vibe defaultVibe = defaultVibe := by simp [jsOrStr, h3]
  simp only [handleGenerate, if_neg h1, if_neg h2]
  cases generateLanguageCore resp <;> simp [hv]

/-- Witness for C10 at a concrete empty-vibe state. -/
theorem C10_empty_vibe_default_witness :
    (handleGenerate curReady (GenResponse.netError [])).calledCore = true ∧
    (handleGenerate curReady (GenResponse.netError [])).callArgs =
      some (curReady.name, defaultVibe, curReady.phonemes) :=
  C10_empty_vibe_default curReady (GenResponse.netError []) (by decide) (by decide)
    (by decide)

/-! ## Claim C2: vocabulary-extension id uniqueness -/

/-- A current language whose vocabulary already contains the id w1. -/
def c2Cur : CtrlLang :=
  { id := none, name := strOf "Test", description := [], phonemes := [strOf "p"]
  , vibe := [], grammar := ⟨[], [], [], []⟩
  , vocabulary := [⟨strOf "w1", strOf "pa", strOf "water", strOf "pa"⟩]
  , createdAt := none }

/-- A model response returning one word whose id collides with the existing
w1. -/
def c2DupText : List Nat :=
  [91, 123, 34, 105, 100, 34, 58, 34, 119, 49, 34, 44, 34, 110,
   97, 116, 105, 118, 101, 34, 58, 34, 116, 117, 34, 44, 34, 109,
   101, 97, 110, 105, 110, 103, 34, 58, 34, 102, 105, 114, 101, 34,
   44, 34, 112, 114, 111, 110, 117, 110, 99, 105, 97, 116, 105, 111,
   110, 34, 58, 34, 116, 117, 34, 125, 93]

/-- A model response returning one word with the fresh id w2. -/
def c2FreshText : List Nat :=
  [91, 123, 34, 105, 100, 34, 58, 34, 119, 50, 34, 44, 34, 110,
   97, 116, 105, 118, 101, 34, 58, 34, 116, 117, 34, 44, 34, 109,
   101, 97, 110, 105, 110, 103, 34, 58, 34, 102, 105, 114, 101, 34,
   44, 34, 112, 114, 111, 110, 117, 110, 99, 105, 97, 116, 105, 111,
   110, 34, 58, 34, 116, 117, 34, 125, 93]

/-- Counterexample to C2 as stated: handleExtendVocabulary appends the
returned words verbatim, so a returned id that collides with an existing one
yields a vocabulary with a duplicated id. -/
theorem C2_counterexample :
    ¬ uniqueIds (handleExtendVocabulary c2Cur (GenResponse.text c2DupText)).1.vocabulary := by
  decide

/-- C2 amended: after a successful extension call the vocabulary is the old
one with the returned words appended, and ids stay unique provided the
returned ids are pairwise distinct and disjoint from the existing ones; the
code itself enforces neither condition. -/
theorem C2_extend_unique_amended (cur : CtrlLang) (resp : GenResponse)
    (ws : List VocabularyWord)
    (hok : extendVocabulary resp = Except.ok ws)
    (h1 : uniqueIds cur.vocabulary)
    (h2 : (ws.map VocabularyWord.id).Nodup)
    (h3 : ∀ w ∈ ws, ∀ w2 ∈ cur.vocabulary, ¬ (w.id = w2.id)) :
    uniqueIds (handleExtendVocabulary cur resp).1.vocabulary ∧
    (handleExtendVocabulary cur resp).1.vocabulary = cur.vocabulary ++ ws := by
  have hv : (handleExtendVocabulary cur resp).1.vocabulary = cur.vocabulary ++ ws := by
    simp [handleExtendVocabulary, hok]
  refine ⟨?_, hv⟩
  rw [hv]
  unfold uniqueIds at h1 ⊢
  rw [List.map_append, List.nodup_append]
  refine ⟨h1, h2, ?_⟩
  intro a ha hb
  obtain ⟨w2, hw2, rfl⟩ := List.mem_map.mp ha
  obtain ⟨w, hw, heq⟩ := List.mem_map.mp hb
  exact h3 w hw w2 hw2 heq

/-- Witness for the amended C2 at a response with a fresh id. -/
theorem C2_extend_unique_amended_witness :
    uniqueIds (handleExtendVocabulary c2Cur (GenResponse.text c2FreshText)).1.vocabulary ∧
    (handleExtendVocabulary c2Cur (GenResponse.text c2FreshText)).1.vocabulary =
      c2Cur.vocabulary ++ [⟨strOf "w2", strOf "tu", strOf "fire", strOf "tu"⟩] :=
  C2_extend_unique_amended c2Cur (GenResponse.text c2FreshText)
    [⟨strOf "w2", strOf "tu", strOf "fire", strOf "tu"⟩]
    (by rfl) (by decide) (by decide) (by decide)

/-! ## Claims C5 and C9: handleSaveLang -/

theorem map_id_of_mem {α : Type} (l : List α) (f : α → α) (h : ∀ x ∈ l, f x = x) :
    l.map f = l := by
  induction l with
  | nil => rfl
  | cons x t ih =>
    rw [List.map_cons, h x (by simp), ih (fun y hy => h y (by simp [hy]))]

/-- A record that already carries an id, with an empty saved collection. -/
def c5Cur : CtrlLang :=
  { id := some (strOf "abc")
  , name := strOf "X", description := [], phonemes := [strOf "p"], vibe := []
  , grammar := ⟨[], [], [], []⟩, vocabulary := [], createdAt := some 5 }

/-- Counterexample to C5 as stated: saving a record whose id is absent from
the collection (for instance one opened from a share link in a fresh
browser) replaces nothing and inserts nothing, so the collection does not
contain the saved record afterwards. -/
theorem C5_counterexample :
    ¬ ((handleSaveLang 100 (strOf "fresh9zzz") c5Cur []).2 ∈
      (handleSaveLang 100 (strOf "fresh9zzz") c5Cur []).1) := by
  decide

/-- C5 amended: handleSaveLang prepends under a falsy id and otherwise
replaces by id; the saved record lands in the collection (with unchanged
size) exactly when its id is already present, the collection is untouched
when the id is absent, and re-saving an unmodified already-saved record (in
a collection with pairwise-distinct ids) leaves the collection unchanged. -/
theorem C5_save_insert_or_replace_amended (now : Nat) (freshId : Str) (cur : CtrlLang)
    (saved : List Conlang) :
    (jsTruthyStr cur.id = false →
      (handleSaveLang now freshId cur saved).1 =
        (handleSaveLang now freshId cur saved).2 :: saved) ∧
    (jsTruthyStr cur.id = true →
      ((handleSaveLang now freshId cur saved).2.id ∈ saved.map Conlang.id →
        (handleSaveLang now freshId cur saved).2 ∈ (handleSaveLang now freshId cur saved).1 ∧
        (handleSaveLang now freshId cur saved).1.length = saved.length) ∧
      ((handleSaveLang now freshId cur saved).2.id ∉ saved.map Conlang.id →
        (handleSaveLang now freshId cur saved).1 = saved)) ∧
    (∀ r ∈ saved, (saved.map Conlang.id).Nodup → cur = ctrlOfConlang r →
      ¬ (r.id = []) → ¬ (r.createdAt = 0) →
      (handleSaveLang now freshId cur saved).1 = saved) := by
  refine ⟨?_, ?_, ?_⟩
  · intro hf
    simp [handleSaveLang, hf]
  · intro ht
    have hupd : (handleSaveLang now freshId cur saved).1 =
        saved.map (fun x => if x.id = (handleSaveLang now freshId cur saved).2.id
          then (handleSaveLang now freshId cur saved).2 else x) := by
      simp only [handleSaveLang, ht, if_true]
    constructor
    · intro hin
      obtain ⟨l, hl, hleq⟩ := List.mem_map.mp hin
      constructor
      · rw [hupd]
        exact List.mem_map.mpr ⟨l, hl, by rw [if_pos hleq]⟩
      · rw [hupd, List.length_map]
    · intro hout
      rw [hupd]
      refine map_id_of_mem saved _ ?_
      intro l hl
      have hne : ¬ (l.id = (handleSaveLang now freshId cur saved).2.id) := by
        intro he
        exact hout (List.mem_map.mpr ⟨l, hl, he⟩)
      rw [if_neg hne]
  · intro r hr hnd hcur hid hca
    have hnew : (handleSaveLang now freshId cur saved).2 = r := by
      subst hcur
      simp only [handleSaveLang, ctrlOfConlang, jsOrOptStr, jsOrOptNat,
        if_neg hid, if_neg hca]
    have ht : jsTruthyStr cur.id = true := by
      subst hcur
      simp [ctrlOfConlang, jsTruthyStr, hid]
    have hmap : (handleSaveLang now freshId cur saved).1 =
        saved.map (fun l => if l.id = (handleSaveLang now freshId cur saved).2.id
          then (handleSaveLang now freshId cur saved).2 else l) := by
      simp only [handleSaveLang, ht, if_true]
    rw [hmap, hnew]
    refine map_id_of_mem saved _ ?_
    intro l hl
    by_cases he : l.id = r.id
    · have : l = r := List.inj_on_of_nodup_map hnd hl hr he
      rw [if_pos he, this]
    · rw [if_neg he]

/-- A concrete saved record used by the save and delete witnesses. -/
def savedRecordA : Conlang :=
  { id := strOf "aaa111"
  , name := strOf "Alpha", description := strOf "first", phonemes := [strOf "p"]
  , vibe := strOf "calm", grammar := ⟨strOf "SVO", [], [], []⟩
  , vocabulary := [], createdAt := 10 }

/-- A second concrete saved record with a distinct id. -/
def savedRecordB : Conlang :=
  { id := strOf "bbb222"
  , name := strOf "Beta", description := strOf "second", phonemes := [strOf "t"]
  , vibe := strOf "sharp", grammar := ⟨strOf "SOV", [], [], []⟩
  , vocabulary := [], createdAt := 20 }

/-- Witness for the amended C5: re-saving an unmodified saved record leaves
the collection unchanged. -/
theorem C5_save_insert_or_replace_amended_witness :
    (handleSaveLang 99 (strOf "zfresh") (ctrlOfConlang savedRecordA)
      [savedRecordA, savedRecordB]).1 = [savedRecordA, savedRecordB] :=
  (C5_save_insert_or_replace_amended 99 (strOf "zfresh") (ctrlOfConlang savedRecordA)
    [savedRecordA, savedRecordB]).2.2 savedRecordA (by decide) (by decide) rfl
    (by decide) (by decide)

/-- A record carrying a non-empty id but a zero createdAt. -/
def c9Cur : CtrlLang :=
  { id := some (strOf "abc")
  , name := strOf "X", description := [], phonemes := [strOf "p"], vibe := []
  , grammar := ⟨[], [], [], []⟩, vocabulary := [], createdAt := some 0 }

/-- Counterexample to C9 as stated: a record with a non-empty id whose
createdAt is 0 (JS-falsy) gets a fresh createdAt on save instead of keeping
it, although the record has one. -/
theorem C9_counterexample :
    jsTruthyStr c9Cur.id = true ∧ c9Cur.createdAt = some 0 ∧
    ¬ (((handleSaveLang 99 (strOf "zzz") c9Cur []).2).createdAt = 0) := by
  decide

/-- C9 amended: a non-empty id is always preserved by handleSaveLang and a
fresh one is assigned exactly when the id is empty or missing; createdAt is
preserved exactly when non-zero (the JS truthiness test), and regenerated
when missing or zero. -/
theorem C9_save_id_stable_amended (now : Nat) (freshId : Str) (cur : CtrlLang)
    (saved : List Conlang) :
    (∀ s, cur.id = some s → ¬ (s = []) →
      ((handleSaveLang now freshId cur saved).2).id = s) ∧
    (jsTruthyStr cur.id = false → ((handleSaveLang now freshId cur saved).2).id = freshId) ∧
    (∀ n, cur.createdAt = some n → ¬ (n = 0) →
      ((handleSaveLang now freshId cur saved).2).createdAt = n) ∧
    ((cur.createdAt = none ∨ cur.createdAt = some 0) →
      ((handleSaveLang now freshId cur saved).2).createdAt = now) := by
  refine ⟨?_, ?_, ?_, ?_⟩
  · intro s hs hne
    simp [handleSaveLang, jsOrOptStr, hs, hne]
  · intro hf
    cases hid : cur.id with
    | none => simp [handleSaveLang, jsOrOptStr, hid]
    | some s =>
      have : s = [] := by
        by_contra hc
        simp [jsTruthyStr, hid, hc] at hf
      simp [handleSaveLang, jsOrOptStr, hid, this]
  · intro n hn hne
    simp [handleSaveLang, jsOrOptNat, hn, hne]
  · intro hca
    rcases hca with hca | hca <;> simp [handleSaveLang, jsOrOptNat, hca]

/-- Witness for the amended C9: a saved record keeps its id and createdAt. -/
theorem C9_save_id_stable_amended_witness :
    ((handleSaveLang 99 (strOf "zfresh") (ctrlOfConlang savedRecordA) []).2).id =
      strOf "aaa111" ∧
    ((handleSaveLang 99 (strOf "zfresh") (ctrlOfConlang savedRecordA) []).2).createdAt = 10 :=
  ⟨(C9_save_id_stable_amended 99 (strOf "zfresh") (ctrlOfConlang savedRecordA) []).1
      (strOf "aaa111") (by decide) (by decide),
   (C9_save_id_stable_amended 99 (strOf "zfresh") (ctrlOfConlang savedRecordA) []).2.2.1
      10 (by decide) (by decide)⟩

/-! ## Claim C8: handleDelete -/

/-- C8: in a collection with pairwise-distinct ids, deleting one record by
id leaves exactly the other records, in their original order. -/
theorem C8_delete_exact (pre post : List Conlang) (r : Conlang)
    (h : ((pre ++ r :: post).map Conlang.id).Nodup) :
    handleDelete r.id (pre ++ r :: post) = pre ++ post := by
  induction pre with
  | nil =>
    simp only [List.nil_append] at h ⊢
    rw [List.map_cons, List.nodup_cons] at h
    have hpost : ∀ l ∈ post, decide (¬ (l.id = r.id)) = true := by
      intro l hl
      simp only [decide_eq_true_eq]
      intro he
      exact h.1 (List.mem_map.mpr ⟨l, hl, he⟩)
    unfold handleDelete
    rw [List.filter_cons]
    rw [show decide (¬ (r.id = r.id)) = false by simp]
    simp only [Bool.false_eq_true, if_false]
    exact List.filter_eq_self.mpr hpost
  | cons p pre ih =>
    rw [List.cons_append, List.map_cons, List.nodup_cons] at h
    have hp : ¬ (p.id = r.id) := by
      intro he
      exact h.1 (by rw [he]; exact List.mem_map.mpr ⟨r, by simp, rfl⟩)
    unfold handleDelete at ih ⊢
    rw [List.cons_append, List.filter_cons]
    rw [if_pos (by simpa using hp)]
    rw [ih h.2]
    rfl

/-- Witness for C8: save two records, delete the first by id, exactly the
second remains. -/
theorem C8_delete_exact_witness :
    handleDelete savedRecordA.id ([] ++ savedRecordA :: [savedRecordB]) =
      [] ++ [savedRecordB] :=
  C8_delete_exact [] [savedRecordB] savedRecordA (by decide)

/-! ## Claim C6: load-time error handling -/

/-- Counterexample to C6 as stated: a malformed share token is caught and
logged to the developer console, but the user-visible error state is not
set, so from the user's point of view the failure is silent. -/
theorem C6_counterexample :
    (appLoad none (some (strOf "%%%"))).error = none ∧
    (appLoad none (some (strOf "%%%"))).consoleErrors = [msgInvalidShare] := by
  decide

/-- C6 amended: a malformed or truncated share token, and corrupted durable
storage, are tolerated without crashing — the prior in-memory state (home
view, empty editor buffer, initial collection) stays intact and the failure
is logged to the developer console — but no user-visible error state is
set. -/
theorem C6_load_tolerates_amended (storage shareParam : Option (List Nat)) :
    (∀ tok, shareParam = some tok → decodeShareJson tok = none →
      (appLoad storage shareParam).appState = AppState.HOME ∧
      (appLoad storage shareParam).currentLang = none ∧
      (appLoad storage shareParam).error = none ∧
      msgInvalidShare ∈ (appLoad storage shareParam).consoleErrors) ∧
    (∀ st, storage = some st → parseJsonTop st = none →
      (appLoad storage shareParam).savedLangs = none ∧
      (appLoad storage shareParam).error = none ∧
      msgCorruptedStorage ∈ (appLoad storage shareParam).consoleErrors) := by
  constructor
  · intro tok hs hbad
    subst hs
    cases storage with
    | none => simp [appLoad, hbad]
    | some st =>
      cases hst : parseJsonTop st <;> simp [appLoad, hbad, hst]
  · intro st hs hbad
    subst hs
    cases shareParam with
    | none => simp [appLoad, hbad]
    | some tok =>
      cases htok : decodeShareJson tok <;> simp [appLoad, hbad, htok]

/-- Witness for the amended C6 at a concrete malformed token and corrupted
storage text. -/
theorem C6_load_tolerates_amended_witness :
    (appLoad (some (strOf "not json")) (some (strOf "%%%"))).appState = AppState.HOME ∧
    (appLoad (some (strOf "not json")) (some (strOf "%%%"))).currentLang = none ∧
    (appLoad (some (strOf "not json")) (some (strOf "%%%"))).error = none ∧
    msgInvalidShare ∈ (appLoad (some (strOf "not json")) (some (strOf "%%%"))).consoleErrors :=
  (C6_load_tolerates_amended (some (strOf "not json")) (some (strOf "%%%"))).1
    (strOf "%%%") rfl (by decide)

end LinguaGen
